import Mathlib

/-!
Verification of the data-block reader (`block.cc`) of the SST format:
entry codec, restart-array seek machinery and the cursor state machine.

The byte buffer is modelled as a `List Nat` of byte values; byte offsets
replace raw pointers.  32-bit machine arithmetic is made explicit with
`% 2^32` (helper `u32sub` for unsigned subtraction).  The comparator is an
opaque `Int`-valued compare function carried by the cursor.
-/

namespace RocksBlock

/-- Status values carried by cursors and block-level queries, mirroring the
corruption statuses produced in `block.cc` (`BadBlockContentsError`,
`BadEntryInBlockError`, the `Incomplete` status of `GetMiddleKey`). -/
inductive Status where
  | OK : Status
  | BadEntryInBlock : Status
  | BadBlockContents : Status
  | Incomplete : Status
deriving DecidableEq

/-- Read the byte at offset `i` of the buffer (out-of-range reads, which are
undefined behaviour in the source, return 0). -/
def byteAt (data : List Nat) (i : Nat) : Nat := data.getD i 0

/-- Bytes of the slice of length `len` starting at offset `off`, the model of
`Slice(data + off, len)`. -/
def sliceOf (data : List Nat) (off len : Nat) : List Nat :=
  (data.drop off).take len

/-- Unsigned 32-bit subtraction: `(a - b) mod 2^32`. -/
def u32sub (a b : Nat) : Nat :=
  (a % 4294967296 + (4294967296 - b % 4294967296)) % 4294967296

/-- Modelled from the spec: `DecodeFixed32` of `util/coding.h` (not part of
the sources here); a fixed 32-bit field is 4 bytes, little-endian. -/
def DecodeFixed32 (data : List Nat) (i : Nat) : Nat :=
  byteAt data i + 256 * byteAt data (i + 1) + 65536 * byteAt data (i + 2) +
    16777216 * byteAt data (i + 3)

/-- Modelled from the spec: one step of `GetVarint32Ptr` of `util/coding.h`
(not part of the sources here); base-128 little-endian groups, high bit is
the continuation bit, at most 5 bytes, value truncated to 32 bits.  `fuel`
counts the remaining permitted groups (5 at top level). -/
def getVarint32Loop (data : List Nat) (limit : Nat) :
    Nat → Nat → Nat → Nat → Option (Nat × Nat)
  | 0, _, _, _ => none
  | fuel + 1, p, shift, acc =>
    if p < limit then
      let b := byteAt data p
      if b < 128 then
        some ((acc + b * 2 ^ shift) % 4294967296, p + 1)
      else
        getVarint32Loop data limit fuel (p + 1) (shift + 7)
          ((acc + b % 128 * 2 ^ shift) % 4294967296)
    else none

/-- Modelled from the spec: `GetVarint32Ptr` of `util/coding.h` (not part of
the sources here).  Returns the decoded value and the offset just past the
varint, or `none` on a truncated or over-long encoding. -/
def GetVarint32Ptr (data : List Nat) (p limit : Nat) : Option (Nat × Nat) :=
  getVarint32Loop data limit 5 p 0 0

/-- The trailing bounds check of `DecodeEntry`: mirrors
`static_cast<uint32_t>(limit - p) < (*non_shared + *value_length)`
(32-bit unsigned comparison, both sides reduced mod `2^32`). -/
def decodeEntryFinish (limit shared nonShared valueLength body : Nat) :
    Option (Nat × Nat × Nat × Nat) :=
  if (limit - body) % 4294967296 < (nonShared + valueLength) % 4294967296 then
    none
  else
    some (shared, nonShared, valueLength, body)

/-- `DecodeEntry` of `block.cc`: decode one entry header at offset `p` with
the byte range bounded by `limit`.  Returns `(shared, non_shared,
value_length, body)` where `body` is the offset of the key delta, or `none`
on any decoding error. -/
def DecodeEntry (data : List Nat) (p limit : Nat) :
    Option (Nat × Nat × Nat × Nat) :=
  if limit - p < 3 then none
  else
    let b0 := byteAt data p
    let b1 := byteAt data (p + 1)
    let b2 := byteAt data (p + 2)
    if Nat.lor b0 (Nat.lor b1 b2) < 128 then
      decodeEntryFinish limit b0 b1 b2 (p + 3)
    else
      match GetVarint32Ptr data p limit with
      | none => none
      | some (shared, p1) =>
        match GetVarint32Ptr data p1 limit with
        | none => none
        | some (nonShared, p2) =>
          match GetVarint32Ptr data p2 limit with
          | none => none
          | some (valueLength, p3) =>
            decodeEntryFinish limit shared nonShared valueLength p3

/-- The cursor (`BlockIter`) state.  `initialized = false` models
`data_ == nullptr` (the not-yet-`Initialize`d cursor).  The current value is
kept as a `(offset, length)` slice into the block buffer; the reconstructed
current key is an owned byte list.  The hash / prefix index collaborators are
modelled by their query shapes from the spec (section 4.4): the hash index
maps a target to an optional contiguous restart range
`(first_index, num_blocks)`, the prefix index maps a target to the list of
candidate restart indices. -/
structure BlockIter where
  cmp : List Nat → List Nat → Int
  initialized : Bool
  data : List Nat
  restarts : Nat
  numRestarts : Nat
  current : Nat
  restartIndex : Nat
  key : List Nat
  value : Nat × Nat
  status : Status
  hashIndex : Option (List Nat → Option (Nat × Nat))
  prefixIndex : Option (List Nat → List Nat)

/-- Modelled from the spec: the default-constructed `BlockIter` of `block.h`
(not part of the sources here): null data pointer, zero offsets, OK status,
empty key and value. -/
def mkBlockIter (cmp : List Nat → List Nat → Int) : BlockIter :=
  { cmp := cmp, initialized := false, data := [], restarts := 0,
    numRestarts := 0, current := 0, restartIndex := 0, key := [],
    value := (0, 0), status := .OK, hashIndex := none, prefixIndex := none }

namespace BlockIter

/-- `BlockIter::Valid()`: the cursor is valid iff `current_ < restarts_`. -/
def Valid (it : BlockIter) : Bool := it.current < it.restarts

/-- Modelled from the spec: `BlockIter::GetRestartPoint` of `block.h` (not
part of the sources here): the fixed32 at offset `restarts_ + index * 4`. -/
def GetRestartPoint (it : BlockIter) (index : Nat) : Nat :=
  DecodeFixed32 it.data (it.restarts + index * 4)

/-- Modelled from the spec: `BlockIter::NextEntryOffset` of `block.h` (not
part of the sources here): the offset just past the current value,
`(value_.data() + value_.size()) - data_` truncated to 32 bits.  This is the
end offset of the current entry, or the restart offset itself just after
`SeekToRestartPoint`. -/
def NextEntryOffset (it : BlockIter) : Nat :=
  (it.value.1 + it.value.2) % 4294967296

/-- Modelled from the spec: `BlockIter::SeekToRestartPoint` of `block.h`
(not part of the sources here): clear the key, set `restart_index_`, and let
the value be the empty slice at the restart offset so that `ParseNextKey`
starts there (`current_` is fixed by the next `ParseNextKey`). -/
def SeekToRestartPoint (it : BlockIter) (index : Nat) : BlockIter :=
  { it with key := [], restartIndex := index,
            value := (it.GetRestartPoint index, 0) }

/-- `BlockIter::CorruptionError()`: invalidate the cursor, clear key and
value, and record the `BadEntryInBlock` status. -/
def CorruptionError (it : BlockIter) : BlockIter :=
  { it with current := it.restarts, restartIndex := it.numRestarts,
            status := .BadEntryInBlock, key := [], value := (0, 0) }

/-- The `restart_index_` advance loop at the end of
`BlockIter::ParseNextKey`: advance while the next restart offset is strictly
below `current`.  `fuel` only drives the structural recursion; the loop
condition `idx + 1 < numRestarts` fails before `numRestarts - idx` units of
fuel run out, so the caller passes exactly that. -/
def advanceRestartIndexAux (it : BlockIter) (current : Nat) :
    Nat → Nat → Nat
  | 0, idx => idx
  | fuel + 1, idx =>
    if idx + 1 < it.numRestarts ∧ it.GetRestartPoint (idx + 1) < current then
      advanceRestartIndexAux it current fuel (idx + 1)
    else idx

/-- The `restart_index_` advance loop of `BlockIter::ParseNextKey`. -/
def advanceRestartIndex (it : BlockIter) (current idx : Nat) : Nat :=
  advanceRestartIndexAux it current (it.numRestarts - idx) idx

/-- `BlockIter::ParseNextKey()`: move to the entry starting at the end of
the current one, decode it, reconstruct the key (zero-copy for `shared = 0`,
`TrimAppend` otherwise), expose the value slice and restore the restart
index. Returns `false` (with the cursor invalidated or corrupted) past the
last entry or on a decode failure. -/
def ParseNextKey (it : BlockIter) : Bool × BlockIter :=
  let current := it.NextEntryOffset
  if current ≥ it.restarts then
    (false, { it with current := it.restarts, restartIndex := it.numRestarts })
  else
    match DecodeEntry it.data current it.restarts with
    | none => (false, CorruptionError it)
    | some (shared, nonShared, valueLength, p) =>
      if it.key.length < shared then
        (false, CorruptionError it)
      else
        let key :=
          if shared = 0 then sliceOf it.data p nonShared
          else it.key.take shared ++ sliceOf it.data p nonShared
        (true, { it with current := current, key := key,
                         value := (p + nonShared, valueLength),
                         restartIndex := it.advanceRestartIndex current it.restartIndex })

/-- `BlockIter::Next()` (the `assert(Valid())` is debug-only). -/
def Next (it : BlockIter) : BlockIter := (ParseNextKey it).2

/-- The rewind loop of `BlockIter::Prev`: decrement `restart_index_` while
its restart offset is `≥ original`; `none` when index 0 is reached with its
offset still `≥ original` (no more entries). -/
def prevRewind (it : BlockIter) (original : Nat) : Nat → Option Nat
  | 0 => if it.GetRestartPoint 0 ≥ original then none else some 0
  | ri + 1 =>
    if it.GetRestartPoint (ri + 1) ≥ original then prevRewind it original ri
    else some (ri + 1)

/-- The shared forward-walk loop `while (ParseNextKey() &&
NextEntryOffset() < bound)` of `BlockIter::Prev` (with `bound` the original
offset) and `BlockIter::SeekToLast` (with `bound = restarts_`).  `fuel`
bounds the number of iterations; callers pass `restarts_ + 1`, enough for
any walk over well-formed entries (each entry takes at least 3 bytes). -/
def parseUntil (bound : Nat) : Nat → BlockIter → BlockIter
  | 0, it => it
  | fuel + 1, it =>
    let r := ParseNextKey it
    if r.1 ∧ r.2.NextEntryOffset < bound then parseUntil bound fuel r.2
    else r.2

/-- `BlockIter::Prev()`: rewind to a restart point before `current_`, then
parse forward until the end of the parsed entry reaches the original
offset. -/
def Prev (it : BlockIter) : BlockIter :=
  let original := it.current
  match prevRewind it original it.restartIndex with
  | none =>
    { it with current := it.restarts, restartIndex := it.numRestarts }
  | some ri =>
    parseUntil original (it.restarts + 1) (SeekToRestartPoint it ri)

/-- The midpoint of the binary search over restart points:
`(left + right + 1) / 2`, upper-biased, computed in 32-bit unsigned
arithmetic. -/
def binarySeekMid (left right : Nat) : Nat :=
  (left + right + 1) % 4294967296 / 2

/-- The loop of `BlockIter::BinarySeek` over the inclusive restart-index
range `[left, right]`.  Probes the restart entry at the upper-biased
midpoint (requiring `shared == 0`), and narrows the range; returns the
chosen restart index, or `none` with a corrupted cursor on a decode failure.
`fuel` bounds the iterations; the caller passes `right - left + 1`, enough
whenever the 32-bit midpoint arithmetic does not wrap. -/
def binarySeekLoop (target : List Nat) :
    Nat → BlockIter → Nat → Nat → Option Nat × BlockIter
  | 0, it, _, _ => (none, it)
  | fuel + 1, it, left, right =>
    if left < right then
      let mid := binarySeekMid left right
      let regionOffset := it.GetRestartPoint mid
      match DecodeEntry it.data regionOffset it.restarts with
      | none => (none, CorruptionError it)
      | some (shared, nonShared, _, keyPtr) =>
        if shared ≠ 0 then (none, CorruptionError it)
        else
          let midKey := sliceOf it.data keyPtr nonShared
          let c := it.cmp midKey target
          if c < 0 then binarySeekLoop target fuel it mid right
          else if 0 < c then binarySeekLoop target fuel it left (u32sub mid 1)
          else (some mid, it)
    else (some left, it)

/-- `BlockIter::BinarySeek`: binary search in the restart array over the
inclusive index range `[left, right]`. -/
def BinarySeek (it : BlockIter) (target : List Nat) (left right : Nat) :
    Option Nat × BlockIter :=
  binarySeekLoop target (right - left + 1) it left right

/-- `BlockIter::CompareBlockKey`: compare the restart entry of restart index
`block_index` against the target; on a decode failure (or non-zero
`shared`), corrupt the cursor and return 1. -/
def CompareBlockKey (it : BlockIter) (blockIndex : Nat) (target : List Nat) :
    Int × BlockIter :=
  let regionOffset := it.GetRestartPoint blockIndex
  match DecodeEntry it.data regionOffset it.restarts with
  | none => (1, CorruptionError it)
  | some (shared, nonShared, _, keyPtr) =>
    if shared ≠ 0 then (1, CorruptionError it)
    else (it.cmp (sliceOf it.data keyPtr nonShared) target, it)

/-- The post-loop `left == right` step of `BlockIter::BinaryBlockIndexSeek`:
when `block_ids[left] > 0`, no candidate sits just to the left of
`block_ids[left]` (`left` is the left bound, or the previous candidate is
not `block_ids[left] - 1`), and the restart entry at `block_ids[left] - 1`
compares greater than the target, the cursor becomes invalid; otherwise the
chosen restart index is `block_ids[left]`. -/
def BBIndexSettle (it : BlockIter) (target : List Nat) (blockIds : List Nat)
    (leftBound left : Nat) : Option Nat × BlockIter :=
  let bl := blockIds.getD left 0
  if 0 < bl ∧ (left = leftBound ∨ blockIds.getD (left - 1) 0 ≠ bl - 1) then
    let r := CompareBlockKey it (bl - 1) target
    if 0 < r.1 then (none, { r.2 with current := r.2.restarts })
    else (some bl, r.2)
  else (some bl, it)

/-- The loop of `BlockIter::BinaryBlockIndexSeek` over the sparse candidate
array `block_ids` (binary search with lower-biased 32-bit midpoint, breaking
into `BBIndexSettle` when the range closes at `left == right`); falling out
of the loop with `left > right` invalidates the cursor.  `fuel` bounds the
iterations; the caller passes `right - left + 2`. -/
def bbIndexSeekLoop (target : List Nat) (blockIds : List Nat)
    (leftBound : Nat) : Nat → BlockIter → Nat → Nat → Option Nat × BlockIter
  | 0, it, _, _ => (none, it)
  | fuel + 1, it, left, right =>
    if left ≤ right then
      let mid := (left + right) % 4294967296 / 2
      let r := CompareBlockKey it (blockIds.getD mid 0) target
      if r.2.status ≠ .OK then (none, r.2)
      else if r.1 < 0 then
        bbIndexSeekLoop target blockIds leftBound fuel r.2 (mid + 1) right
      else if left = right then
        BBIndexSettle r.2 target blockIds leftBound left
      else bbIndexSeekLoop target blockIds leftBound fuel r.2 left mid
    else (none, { it with current := it.restarts })

/-- `BlockIter::BinaryBlockIndexSeek`: binary search in `block_ids` for the
first candidate block with a key `≥ target`, with the prefix-index gap
check on settling. -/
def BinaryBlockIndexSeek (it : BlockIter) (target : List Nat)
    (blockIds : List Nat) (left right : Nat) : Option Nat × BlockIter :=
  bbIndexSeekLoop target blockIds left (right - left + 2) it left right

/-- `BlockIter::HashSeek`: query the hash index; absence invalidates the
cursor, otherwise binary-seek over the contiguous restart range
`[first_index, first_index + num_blocks - 1]` (32-bit arithmetic). -/
def HashSeek (it : BlockIter) (target : List Nat) : Option Nat × BlockIter :=
  match it.hashIndex with
  | none => (none, it)
  | some getRestartIndex =>
    match getRestartIndex target with
    | none => (none, { it with current := it.restarts })
    | some (firstIndex, numBlocks) =>
      BinarySeek it target firstIndex (u32sub (firstIndex + numBlocks) 1)

/-- `BlockIter::PrefixSeek`: query the prefix index for the candidate
restart indices; an empty answer invalidates the cursor, otherwise run
`BinaryBlockIndexSeek` over the candidates. -/
def PrefixSeek (it : BlockIter) (target : List Nat) : Option Nat × BlockIter :=
  match it.prefixIndex with
  | none => (none, it)
  | some getBlocks =>
    let blockIds := getBlocks target
    if blockIds.length = 0 then (none, { it with current := it.restarts })
    else BinaryBlockIndexSeek it target blockIds 0 (blockIds.length - 1)

/-- The linear-search loop of `BlockIter::Seek`: starting just before the
chosen restart point, parse forward until the reconstructed key is
`≥ target` or the block ends.  `fuel` bounds the iterations; the caller
passes `restarts_ + 1`. -/
def seekLinear (target : List Nat) : Nat → BlockIter → BlockIter
  | 0, it => it
  | fuel + 1, it =>
    let r := ParseNextKey it
    if r.1 = false then r.2
    else if 0 ≤ r.2.cmp r.2.key target then r.2
    else seekLinear target fuel r.2

/-- `BlockIter::Seek(target)`: no-op when not initialized; otherwise choose
the restart index by prefix-index, hash-index or plain binary seek, then
linearly search for the first key `≥ target`. -/
def Seek (it : BlockIter) (target : List Nat) : BlockIter :=
  if it.initialized = false then it
  else
    let r :=
      if it.prefixIndex.isSome then PrefixSeek it target
      else if it.hashIndex.isSome then HashSeek it target
      else BinarySeek it target 0 (u32sub it.numRestarts 1)
    match r.1 with
    | none => r.2
    | some index => seekLinear target (r.2.restarts + 1) (SeekToRestartPoint r.2 index)

/-- `BlockIter::SeekToFirst()`: no-op when not initialized; otherwise seek
to restart point 0 and parse one entry. -/
def SeekToFirst (it : BlockIter) : BlockIter :=
  if it.initialized = false then it
  else (ParseNextKey (SeekToRestartPoint it 0)).2

/-- `BlockIter::SeekToLast()`: no-op when not initialized; otherwise seek to
the final restart point and parse forward to the last entry. -/
def SeekToLast (it : BlockIter) : BlockIter :=
  if it.initialized = false then it
  else
    parseUntil it.restarts (it.restarts + 1)
      (SeekToRestartPoint it (u32sub it.numRestarts 1))

/-- `BlockIter::Initialize`: record the comparator, buffer, restart-array
offset and count, attach the index references, and start invalid
(`current_ = restarts_`, `restart_index_ = num_restarts_`). -/
def Initialize (it : BlockIter) (cmp : List Nat → List Nat → Int)
    (data : List Nat) (restarts numRestarts : Nat)
    (hashIndex : Option (List Nat → Option (Nat × Nat)))
    (prefixIndex : Option (List Nat → List Nat)) : BlockIter :=
  { it with cmp := cmp, initialized := true, data := data,
            restarts := restarts, numRestarts := numRestarts,
            current := restarts, restartIndex := numRestarts,
            hashIndex := hashIndex, prefixIndex := prefixIndex }

/-- `BlockIter::SetStatus`. -/
def SetStatus (it : BlockIter) (s : Status) : BlockIter :=
  { it with status := s }

end BlockIter

/-- `kMinBlockSize`: an empty block still holds one restart point and the
restart count, `2 * sizeof(uint32_t)` bytes. -/
def kMinBlockSize : Nat := 8

/-- The `Block` handle: the owned buffer, the (possibly zeroed-out) size and
the restart-array offset, plus the optional attached indexes. -/
structure Block where
  data : List Nat
  size : Nat
  restartOffset : Nat
  hashIndex : Option (List Nat → Option (Nat × Nat))
  prefixIndex : Option (List Nat → List Nat)

namespace Block

/-- `Block::NumRestarts()`: the fixed32 in the last 4 bytes. -/
def NumRestarts (b : Block) : Nat := DecodeFixed32 b.data (b.size - 4)

/-- The `Block` constructor: buffers shorter than 4 bytes are marked
degenerate (`size_ = 0`); otherwise compute
`restart_offset_ = uint32(size) - (1 + NumRestarts()) * 4` in unsigned
32-bit arithmetic and mark the block degenerate when it wrapped past
`size - 4`. -/
def mkBlock (data : List Nat) : Block :=
  if data.length < 4 then
    { data := data, size := 0, restartOffset := 0,
      hashIndex := none, prefixIndex := none }
  else if u32sub data.length
      ((1 + DecodeFixed32 data (data.length - 4)) % 4294967296 * 4) >
      data.length - 4 then
    { data := data, size := 0,
      restartOffset := u32sub data.length
        ((1 + DecodeFixed32 data (data.length - 4)) % 4294967296 * 4),
      hashIndex := none, prefixIndex := none }
  else
    { data := data, size := data.length,
      restartOffset := u32sub data.length
        ((1 + DecodeFixed32 data (data.length - 4)) % 4294967296 * 4),
      hashIndex := none, prefixIndex := none }

/-- `Block::NewIterator` (the `iter != nullptr` shape): a block below the
minimum size yields a cursor carrying `BadBlockContents`; zero restarts
yield a permanently-invalid cursor with OK status; otherwise initialize the
cursor, suppressing both auxiliary indexes under `total_order_seek`. -/
def NewIterator (b : Block) (cmp : List Nat → List Nat → Int)
    (iter : BlockIter) (totalOrderSeek : Bool) : BlockIter :=
  if b.size < kMinBlockSize then iter.SetStatus .BadBlockContents
  else
    let numRestarts := b.NumRestarts
    if numRestarts = 0 then iter.SetStatus .OK
    else
      let hashIndexPtr := if totalOrderSeek then none else b.hashIndex
      let prefixIndexPtr := if totalOrderSeek then none else b.prefixIndex
      iter.Initialize cmp b.data b.restartOffset numRestarts
        hashIndexPtr prefixIndexPtr

/-- `Block::GetMiddleKey()`: degenerate or too-small blocks yield
`BadBlockContents`, the minimum-size (empty) block yields `Incomplete`;
otherwise decode the restart entry at index `NumRestarts() / 2` (requiring
`shared == 0`) and return its unshared key bytes. -/
def GetMiddleKey (b : Block) : Except Status (List Nat) :=
  if b.size < kMinBlockSize then .error .BadBlockContents
  else if b.size = kMinBlockSize then .error .Incomplete
  else
    let restartIdx := b.NumRestarts / 2
    let entryOffset := DecodeFixed32 b.data (b.restartOffset + restartIdx * 4)
    match DecodeEntry b.data entryOffset b.restartOffset with
    | none => .error .BadEntryInBlock
    | some (shared, nonShared, _, keyPtr) =>
      if shared ≠ 0 then .error .BadEntryInBlock
      else .ok (sliceOf b.data keyPtr nonShared)

end Block

/-- The bytewise (`memcmp`-style) comparator, used to instantiate the
opaque comparator on concrete examples. -/
def bytewiseCompare : List Nat → List Nat → Int
  | [], [] => 0
  | [], _ :: _ => -1
  | _ :: _, [] => 1
  | a :: as, b :: bs =>
    if a < b then -1 else if b < a then 1 else bytewiseCompare as bs

/-- Spec-level view of one block entry (data model, spec section 3.2/3.3):
its byte offset, decoded header fields, the offset `body` of its unshared
key bytes, and the fully reconstructed key. -/
structure Entry where
  off : Nat
  shared : Nat
  nonShared : Nat
  valueLen : Nat
  body : Nat
  key : List Nat
deriving DecidableEq, Inhabited

/-- The end offset of an entry, which is the offset of the next entry. -/
def Entry.endOff (e : Entry) : Nat := e.body + e.nonShared + e.valueLen

/-- Spec-level exhaustive parse of the entry region `[off, limit)` of a
block (data model, spec section 3.1-3.3): decode entries back-to-back,
reconstructing each key from the previous one, requiring every entry to lie
inside the region and the last one to end exactly at `limit`.  `fuel` only
ensures termination; `limit` itself is enough fuel since every entry takes
at least 3 bytes. -/
def parseEntriesAux (data : List Nat) (limit : Nat) :
    Nat → Nat → List Nat → Option (List Entry)
  | 0, off, _ => if off = limit then some [] else none
  | fuel + 1, off, prevKey =>
    if limit ≤ off then (if off = limit then some [] else none)
    else
      match DecodeEntry data off limit with
      | none => none
      | some (s, ns, vl, body) =>
        if prevKey.length < s then none
        else if limit < body + ns + vl then none
        else
          let key := prevKey.take s ++ sliceOf data body ns
          match parseEntriesAux data limit fuel (body + ns + vl) key with
          | none => none
          | some rest =>
            some (⟨off, s, ns, vl, body, key⟩ :: rest)

/-- Spec-level parse of a whole entry region `[0, limit)`. -/
def parseEntries (data : List Nat) (limit : Nat) : Option (List Entry) :=
  parseEntriesAux data limit limit 0 []

/-- The tail of the entry region starting at offset `off` parses to `tail`,
with `pk` the key of the entry preceding `off` (empty at offset 0). -/
def ParsesFrom (data : List Nat) (limit off : Nat) (pk : List Nat)
    (tail : List Entry) : Prop :=
  ∃ fuel, parseEntriesAux data limit fuel off pk = some tail

/-- The comparator laws used here: an opaque total preorder given by the
sign of `cmp`. -/
structure IsComparator (cmp : List Nat → List Nat → Int) : Prop where
  lt_trans : ∀ a b c, cmp a b < 0 → cmp b c < 0 → cmp a c < 0
  lt_of_lt_of_eq : ∀ a b c, cmp a b < 0 → cmp b c = 0 → cmp a c < 0

/-- Well-formed block (data model, spec section 3): `data` is the buffer,
`ro` the restart-array offset, `nr` the restart count read from the
trailer, and `es` the spec-level entry sequence.  Restart points address
entries with `shared = 0`, are strictly ascending and start at offset 0,
and the entry keys are strictly sorted by `cmp`. -/
structure WFBlock (cmp : List Nat → List Nat → Int) (data : List Nat)
    (ro nr : Nat) (es : List Entry) : Prop where
  bytes : ∀ b ∈ data, b < 256
  maxSize : data.length < 4294967296
  nrDef : nr = DecodeFixed32 data (data.length - 4)
  nrPos : 1 ≤ nr
  roDef : ro + (1 + nr) * 4 = data.length
  parsed : parseEntries data ro = some es
  restartEntry : ∀ k, k < nr → ∃ j, ∃ h : j < es.length,
    (es.get ⟨j, h⟩).off = DecodeFixed32 data (ro + k * 4) ∧
    (es.get ⟨j, h⟩).shared = 0
  restartAsc : ∀ k k', k < k' → k' < nr →
    DecodeFixed32 data (ro + k * 4) < DecodeFixed32 data (ro + k' * 4)
  restartZero : DecodeFixed32 data (ro + 0 * 4) = 0
  sorted : ∀ j, (h : j + 1 < es.length) →
    cmp (es.get ⟨j, Nat.lt_of_succ_lt h⟩).key (es.get ⟨j + 1, h⟩).key < 0

/-- The cursor ranges over the given well-formed block data with the given
comparator, and has been initialized. -/
def IterOn (it : BlockIter) (cmp : List Nat → List Nat → Int)
    (data : List Nat) (ro nr : Nat) : Prop :=
  it.cmp = cmp ∧ it.initialized = true ∧ it.data = data ∧
    it.restarts = ro ∧ it.numRestarts = nr

/-- The cursor exposes exactly entry `e`: positioned at its offset with its
reconstructed key and its value slice. -/
def AtEntryKV (it : BlockIter) (e : Entry) : Prop :=
  it.current = e.off ∧ it.key = e.key ∧
    it.value = (e.body + e.nonShared, e.valueLen)

/-- The restart-index bracketing invariant maintained by `ParseNextKey`:
the restart point of `restart_index_` is at or before `current_` and the
next one (if any) is at or past it. -/
def RestartIndexInv (it : BlockIter) : Prop :=
  it.restartIndex < it.numRestarts ∧
  it.GetRestartPoint it.restartIndex ≤ it.current ∧
  (it.restartIndex + 1 < it.numRestarts →
    it.current ≤ it.GetRestartPoint (it.restartIndex + 1))

/-- Two cursor states agreeing on everything except the entry position
(current offset, restart index, key, value): same block, comparator,
indexes, initialization flag and status. -/
def SameBlock (it it' : BlockIter) : Prop :=
  it'.cmp = it.cmp ∧ it'.initialized = it.initialized ∧ it'.data = it.data ∧
    it'.restarts = it.restarts ∧ it'.numRestarts = it.numRestarts ∧
    it'.status = it.status ∧ it'.hashIndex = it.hashIndex ∧
    it'.prefixIndex = it.prefixIndex

/-- Concrete block (spec scenario S1): the single entry
`(0,3,4,"foo","BARS")` with one restart point. -/
def wdS1 : List Nat :=
  [0, 3, 4, 102, 111, 111, 66, 65, 82, 83, 0, 0, 0, 0, 1, 0, 0, 0]

/-- The entry sequence of `wdS1`. -/
def wesS1 : List Entry := [⟨0, 0, 3, 4, 3, [102, 111, 111]⟩]

/-- A fresh cursor over `wdS1` with the bytewise comparator. -/
def witS1 : BlockIter :=
  (Block.mkBlock wdS1).NewIterator bytewiseCompare
    (mkBlockIter bytewiseCompare) false

/-- Concrete block (spec scenario S2): entries `(0,3,1,"foo","1")` and
`(2,1,1,"r","2")` (keys `"foo"`, `"for"`), one restart point. -/
def wdS2 : List Nat :=
  [0, 3, 1, 102, 111, 111, 49, 2, 1, 1, 114, 50, 0, 0, 0, 0, 1, 0, 0, 0]

/-- The entry sequence of `wdS2`. -/
def wesS2 : List Entry :=
  [⟨0, 0, 3, 1, 3, [102, 111, 111]⟩, ⟨7, 2, 1, 1, 10, [102, 111, 114]⟩]

/-- A fresh cursor over `wdS2` with the bytewise comparator. -/
def witS2 : BlockIter :=
  (Block.mkBlock wdS2).NewIterator bytewiseCompare
    (mkBlockIter bytewiseCompare) false

/-- The `wdS2` cursor standing at entry 1 (key `"for"`). -/
def witS2e1 : BlockIter := witS2.SeekToFirst.Next

/-- Concrete block (spec scenario S3): entries `(0,3,1,"abc","A")` and
`(0,3,1,"def","D")`, two restart points (offsets 0 and 7). -/
def wdS3 : List Nat :=
  [0, 3, 1, 97, 98, 99, 65, 0, 3, 1, 100, 101, 102, 68,
   0, 0, 0, 0, 7, 0, 0, 0, 2, 0, 0, 0]

/-- The entry sequence of `wdS3`. -/
def wesS3 : List Entry :=
  [⟨0, 0, 3, 1, 3, [97, 98, 99]⟩, ⟨7, 0, 3, 1, 10, [100, 101, 102]⟩]

/-- A cursor over `wdS3` carrying a prefix index whose candidate list is
all of the restart indices. -/
def witC6 : BlockIter :=
  (mkBlockIter bytewiseCompare).Initialize bytewiseCompare wdS3 14 2 none
    (some fun _ => [0, 1])

/-- Concrete block with an entry lying exactly at restart point 1: entries
`(0,1,0,"a")` and `(0,1,0,"b")`, restart offsets 0 and 4. -/
def wdC3 : List Nat :=
  [0, 1, 0, 97, 0, 1, 0, 98, 0, 0, 0, 0, 4, 0, 0, 0, 2, 0, 0, 0]

/-- A fresh cursor over `wdC3` with the bytewise comparator. -/
def witC3 : BlockIter :=
  (Block.mkBlock wdC3).NewIterator bytewiseCompare
    (mkBlockIter bytewiseCompare) false

/-- Concrete corrupt block (spec scenario S4): the single entry header
claims `value_length = 200`, larger than the remaining bytes. -/
def wdS4 : List Nat := [0, 1, 200, 97, 0, 0, 0, 0, 1, 0, 0, 0]

/-- A fresh cursor over the corrupt block `wdS4`. -/
def witS4 : BlockIter :=
  (Block.mkBlock wdS4).NewIterator bytewiseCompare
    (mkBlockIter bytewiseCompare) false

/-- Concrete block with one entry per restart point: keys `"a"`, `"c"`,
`"e"` at restart offsets 0, 4, 8. -/
def wdGap : List Nat :=
  [0, 1, 0, 97, 0, 1, 0, 99, 0, 1, 0, 101,
   0, 0, 0, 0, 4, 0, 0, 0, 8, 0, 0, 0, 3, 0, 0, 0]

/-- The entry sequence of `wdGap`. -/
def wesGap : List Entry :=
  [⟨0, 0, 1, 0, 3, [97]⟩, ⟨4, 0, 1, 0, 7, [99]⟩, ⟨8, 0, 1, 0, 11, [101]⟩]

/-- A cursor over `wdGap` carrying a prefix index whose candidate list
`[0, 2]` omits restart point 1 (a gap between candidates). -/
def witGap : BlockIter :=
  (mkBlockIter bytewiseCompare).Initialize bytewiseCompare wdGap 12 3 none
    (some fun _ => [0, 2])

theorem bytewiseCompare_eq_zero : ∀ a b : List Nat,
    bytewiseCompare a b = 0 → a = b := by
  intro a
  induction a with
  | nil =>
    intro b h
    cases b with
    | nil => rfl
    | cons y ys => simp [bytewiseCompare] at h
  | cons x xs ih =>
    intro b h
    cases b with
    | nil => simp [bytewiseCompare] at h
    | cons y ys =>
      rcases Nat.lt_trichotomy x y with hlt | heq | hgt
      · rw [bytewiseCompare, if_pos hlt] at h
        omega
      · rw [bytewiseCompare, if_neg (by omega), if_neg (by omega)] at h
        rw [heq, ih ys h]
      · rw [bytewiseCompare, if_neg (by omega), if_pos hgt] at h
        omega

theorem bytewiseCompare_lt_trans : ∀ a b c : List Nat,
    bytewiseCompare a b < 0 → bytewiseCompare b c < 0 →
      bytewiseCompare a c < 0 := by
  intro a
  induction a with
  | nil =>
    intro b c h1 h2
    cases b with
    | nil => simp [bytewiseCompare] at h1
    | cons y ys =>
      cases c with
      | nil => simp [bytewiseCompare] at h2
      | cons z zs => simp [bytewiseCompare]
  | cons x xs ih =>
    intro b c h1 h2
    cases b with
    | nil => simp [bytewiseCompare] at h1
    | cons y ys =>
      cases c with
      | nil => simp [bytewiseCompare] at h2
      | cons z zs =>
        rcases Nat.lt_trichotomy x y with hxy | hxy | hxy
        · rcases Nat.lt_trichotomy y z with hyz | hyz | hyz
          · rw [bytewiseCompare, if_pos (by omega)]; omega
          · rw [bytewiseCompare, if_pos (by omega)]; omega
          · rw [bytewiseCompare, if_neg (by omega), if_pos hyz] at h2; omega
        · rw [bytewiseCompare, if_neg (by omega), if_neg (by omega)] at h1
          rcases Nat.lt_trichotomy y z with hyz | hyz | hyz
          · rw [bytewiseCompare, if_pos (by omega)]; omega
          · rw [bytewiseCompare, if_neg (by omega), if_neg (by omega)] at h2
            rw [bytewiseCompare, if_neg (by omega), if_neg (by omega)]
            exact ih ys zs h1 h2
          · rw [bytewiseCompare, if_neg (by omega), if_pos hyz] at h2; omega
        · rw [bytewiseCompare, if_neg (by omega), if_pos hxy] at h1; omega

theorem isComparator_bytewise : IsComparator bytewiseCompare := by
  refine ⟨bytewiseCompare_lt_trans, ?_⟩
  intro a b c h1 h2
  rw [bytewiseCompare_eq_zero b c h2] at h1
  exact h1

theorem getVarint32Loop_bounds (data : List Nat) (limit : Nat) :
    ∀ fuel p shift acc v p',
      getVarint32Loop data limit fuel p shift acc = some (v, p') →
        p < p' ∧ p' ≤ limit := by
  intro fuel
  induction fuel with
  | zero =>
    intro p shift acc v p' h
    simp [getVarint32Loop] at h
  | succ n ih =>
    intro p shift acc v p' h
    simp only [getVarint32Loop] at h
    split at h
    case isTrue hp =>
      split at h
      case isTrue hb =>
        simp only [Option.some.injEq, Prod.mk.injEq] at h
        omega
      case isFalse hb =>
        have := ih (p + 1) (shift + 7) _ v p' h
        omega
    case isFalse => simp at h

theorem decodeEntryFinish_some (limit s ns vl body s' ns' vl' body' : Nat)
    (h : decodeEntryFinish limit s ns vl body = some (s', ns', vl', body')) :
    s' = s ∧ ns' = ns ∧ vl' = vl ∧ body' = body ∧
      ¬ (limit - body) % 4294967296 < (ns + vl) % 4294967296 := by
  simp only [decodeEntryFinish] at h
  split at h
  · simp at h
  case isFalse hc =>
    simp only [Option.some.injEq, Prod.mk.injEq] at h
    obtain ⟨h1, h2, h3, h4⟩ := h
    exact ⟨h1.symm, h2.symm, h3.symm, h4.symm, hc⟩

theorem DecodeEntry_some_facts (data : List Nat) (p limit s ns vl body : Nat)
    (h : DecodeEntry data p limit = some (s, ns, vl, body)) :
    p + 3 ≤ body ∧ body ≤ limit ∧
      ¬ (limit - body) % 4294967296 < (ns + vl) % 4294967296 := by
  simp only [DecodeEntry] at h
  split at h
  · simp at h
  case isFalse h3 =>
    split at h
    · obtain ⟨hs, hns, hvl, hb, hc⟩ := decodeEntryFinish_some _ _ _ _ _ _ _ _ _ h
      subst hns; subst hvl; subst hb
      refine ⟨by omega, by omega, hc⟩
    · split at h
      · simp at h
      · rename_i v1 p1 hv1
        split at h
        · simp at h
        · rename_i v2 p2 hv2
          split at h
          · simp at h
          · rename_i v3 p3 hv3
            obtain ⟨hb1, hb1'⟩ := getVarint32Loop_bounds data limit _ _ _ _ _ _ hv1
            obtain ⟨hb2, hb2'⟩ := getVarint32Loop_bounds data limit _ _ _ _ _ _ hv2
            obtain ⟨hb3, hb3'⟩ := getVarint32Loop_bounds data limit _ _ _ _ _ _ hv3
            obtain ⟨hs, hns, hvl, hb, hc⟩ :=
              decodeEntryFinish_some _ _ _ _ _ _ _ _ _ h
            subst hns; subst hvl; subst hb
            refine ⟨by omega, by omega, hc⟩

/-- C10: calling `seek(target)`, `seek_to_first` or `seek_to_last` on a
cursor that was never initialized (its block-data pointer is null, modelled
by `initialized = false`) returns immediately as a no-op: the cursor is
returned completely unchanged (hence no entry decode is attempted, the
cursor stays invalid, and its status is preserved). -/
theorem uninitialized_cursor_ops_noop (it : BlockIter) (target : List Nat)
    (h : it.initialized = false) :
    it.Seek target = it ∧ it.SeekToFirst = it ∧ it.SeekToLast = it := by
  unfold BlockIter.Seek BlockIter.SeekToFirst BlockIter.SeekToLast
  rw [h]
  simp

/-- Witness for `uninitialized_cursor_ops_noop` at the default-constructed
cursor. -/
theorem uninitialized_cursor_ops_noop_witness :
    (mkBlockIter bytewiseCompare).Seek [102] = mkBlockIter bytewiseCompare ∧
    (mkBlockIter bytewiseCompare).SeekToFirst = mkBlockIter bytewiseCompare ∧
    (mkBlockIter bytewiseCompare).SeekToLast = mkBlockIter bytewiseCompare :=
  uninitialized_cursor_ops_noop (mkBlockIter bytewiseCompare) [102] rfl

/-- C9: a buffer of size `4 ≤ N < 8` whose trailer passes the
restart-offset wrap check is not marked degenerate (`size_` keeps the real
size instead of the 0 error marker), yet `NewIterator` still hands out a
cursor with status `BadBlockContents` and `GetMiddleKey` still returns
`BadBlockContents`, because both gate on `size_ < kMinBlockSize` rather
than on the degenerate marker. -/
theorem undersized_block_rejected_without_degenerate_marker
    (data : List Nat) (cmp : List Nat → List Nat → Int) (iter : BlockIter)
    (tos : Bool) (h4 : 4 ≤ data.length) (h8 : data.length < 8)
    (hnw : u32sub data.length
        ((1 + DecodeFixed32 data (data.length - 4)) % 4294967296 * 4) ≤
      data.length - 4) :
    (Block.mkBlock data).size = data.length ∧
    (Block.mkBlock data).size ≠ 0 ∧
    ((Block.mkBlock data).NewIterator cmp iter tos).status =
      .BadBlockContents ∧
    (Block.mkBlock data).GetMiddleKey = .error .BadBlockContents := by
  have hsz : (Block.mkBlock data).size = data.length := by
    unfold Block.mkBlock
    rw [if_neg (by omega), if_neg (Nat.not_lt.mpr hnw)]
  refine ⟨hsz, by omega, ?_, ?_⟩
  · unfold Block.NewIterator
    rw [if_pos (by rw [hsz]; unfold kMinBlockSize; omega)]
    rfl
  · unfold Block.GetMiddleKey
    rw [if_pos (by rw [hsz]; unfold kMinBlockSize; omega)]

/-- Witness for `undersized_block_rejected_without_degenerate_marker` on
the 4-byte buffer with `num_restarts = 0`. -/
theorem undersized_block_rejected_witness :
    (Block.mkBlock [0, 0, 0, 0]).size = 4 ∧
    (Block.mkBlock [0, 0, 0, 0]).size ≠ 0 ∧
    ((Block.mkBlock [0, 0, 0, 0]).NewIterator bytewiseCompare
        (mkBlockIter bytewiseCompare) false).status = .BadBlockContents ∧
    (Block.mkBlock [0, 0, 0, 0]).GetMiddleKey = .error .BadBlockContents :=
  undersized_block_rejected_without_degenerate_marker [0, 0, 0, 0]
    bytewiseCompare (mkBlockIter bytewiseCompare) false (by decide)
    (by decide) (by decide)

/-- C2, counterexample: the 32-bit sum `non_shared + value_length` in the
trailing bounds check of `DecodeEntry` wraps.  The 11-byte header below
declares `shared = 0`, `non_shared = 2^31` and `value_length = 2^31` (two
5-byte varints); their 32-bit sum wraps to 0, so the check
`uint32(limit - p) < non_shared + value_length` is `0 < 0`, which is false,
and the entry is accepted even though its declared body extends `2^32`
bytes past `limit` (here `limit - body = 0`). -/
theorem decode_entry_bounds_check_wraps :
    DecodeEntry [0, 128, 128, 128, 128, 8, 128, 128, 128, 128, 8] 0 11 =
      some (0, 2147483648, 2147483648, 11) ∧
    (11 : Nat) - 11 < 2147483648 + 2147483648 := by
  constructor
  · rfl
  · omega

/-- C2, amended: whenever the 32-bit sum `non_shared + value_length` does
not itself overflow (`non_shared + value_length < 2^32`) and the remaining
range is below 4 GiB (`limit < 2^32`, which holds for every in-bounds use,
since `restarts_` is a `uint32`), the bounds check of `DecodeEntry` accepts
only entries whose declared key/value body fits inside `limit`. -/
theorem decode_entry_bounds_check_sound (data : List Nat)
    (p limit s ns vl body : Nat) (hlimit : limit < 4294967296)
    (hsum : ns + vl < 4294967296)
    (h : DecodeEntry data p limit = some (s, ns, vl, body)) :
    body + ns + vl ≤ limit := by
  obtain ⟨h3, hle, hchk⟩ := DecodeEntry_some_facts data p limit s ns vl body h
  rw [Nat.mod_eq_of_lt (by omega), Nat.mod_eq_of_lt hsum] at hchk
  omega

/-- Witness for `decode_entry_bounds_check_sound` at the single-entry block
`wdS1`. -/
theorem decode_entry_bounds_check_sound_witness :
    3 + 3 + 4 ≤ 10 :=
  decode_entry_bounds_check_sound wdS1 0 10 0 3 4 3 (by decide) (by decide)
    (by decide)

/-- C8, counterexample: with 32-bit arithmetic the upper-biased midpoint
itself can wrap: for `left = 2`, `right = 2^32 - 3` (valid `uint32` inputs
with `left < right`, as permitted by `assert(left <= right)`),
`(left + right + 1) / 2` computed in `uint32` is 0, so the branch
`right = mid - 1` would run with `mid = 0` and the unsigned subtraction
wraps to `2^32 - 1`.  The final conjunct exhibits the branch actually
executing in `binarySeekLoop` (with one unit of fuel, the probe at `mid =
0` over the `wdS1` cursor compares greater than the target `"e"`, takes
the `right = mid - 1` branch and recurses, so the loop neither settles nor
corrupts). -/
theorem binary_seek_mid_wraps :
    2 < 4294967293 ∧ BlockIter.binarySeekMid 2 4294967293 = 0 ∧
    u32sub (BlockIter.binarySeekMid 2 4294967293) 1 = 4294967295 ∧
    (BlockIter.binarySeekLoop [101] 1 witS1 2 4294967293).1 = none ∧
    (BlockIter.binarySeekLoop [101] 1 witS1 2 4294967293).2.status = .OK := by
  refine ⟨by decide, by decide, by decide, rfl, rfl⟩

/-- C8, amended: in the binary seek over restart points, whenever
`left < right` (the only case in which the loop body runs) and the 32-bit
midpoint computation does not wrap (`left + right + 1 < 2^32`, which holds
in every reachable execution over a block with at most `2^31` restart
points), the upper-biased midpoint is at least 1 and the unsigned
subtraction `mid - 1` does not underflow. -/
theorem binary_seek_mid_no_underflow (left right : Nat) (h : left < right)
    (hw : left + right + 1 < 4294967296) :
    1 ≤ BlockIter.binarySeekMid left right ∧
      u32sub (BlockIter.binarySeekMid left right) 1 =
        BlockIter.binarySeekMid left right - 1 := by
  unfold BlockIter.binarySeekMid u32sub
  omega

/-- Witness for `binary_seek_mid_no_underflow` at `left = 0`,
`right = 1`. -/
theorem binary_seek_mid_no_underflow_witness :
    1 ≤ BlockIter.binarySeekMid 0 1 ∧
      u32sub (BlockIter.binarySeekMid 0 1) 1 = BlockIter.binarySeekMid 0 1 - 1 :=
  binary_seek_mid_no_underflow 0 1 (by decide) (by decide)

/-- C7, counterexample: the 5-byte buffer `[0,0,0,0,0]` yields a block
that is neither degenerate (`size_ = 5`, not the 0 error marker) nor empty
(size differs from the 8-byte minimum), yet `GetMiddleKey` returns
`BadBlockContents` (not the entry's key bytes nor `BadEntryInBlock`),
because `GetMiddleKey` gates on `size_ < kMinBlockSize`, not on the
degenerate marker. -/
theorem middle_key_nondegenerate_small_block :
    (Block.mkBlock [0, 0, 0, 0, 0]).size = 5 ∧
    (Block.mkBlock [0, 0, 0, 0, 0]).size ≠ 0 ∧
    (Block.mkBlock [0, 0, 0, 0, 0]).size ≠ kMinBlockSize ∧
    (Block.mkBlock [0, 0, 0, 0, 0]).GetMiddleKey = .error .BadBlockContents ∧
    (Block.mkBlock [0, 0, 0, 0, 0]).GetMiddleKey ≠ .error .BadEntryInBlock := by
  refine ⟨rfl, by decide, by decide, rfl, ?_⟩
  intro hx
  rw [show (Block.mkBlock [0, 0, 0, 0, 0]).GetMiddleKey =
        Except.error Status.BadBlockContents from rfl] at hx
  simp at hx

/-- C7, amended: for every block whose size strictly exceeds the 8-byte
minimum, `middle_key()` returns exactly the unshared key bytes of the
entry at the restart offset with index `⌊num_restarts / 2⌋` when that
entry decodes with `shared = 0`, and `BadEntryInBlock` when it fails to
decode or has non-zero `shared`; a block of exactly the minimum size
yields `Incomplete`, and any block below the minimum size (degenerate or
not) yields `BadBlockContents`. -/
theorem middle_key_spec (b : Block) :
    (b.size < kMinBlockSize → b.GetMiddleKey = .error .BadBlockContents) ∧
    (b.size = kMinBlockSize → b.GetMiddleKey = .error .Incomplete) ∧
    (kMinBlockSize < b.size →
      (∀ ns vl body,
        DecodeEntry b.data
            (DecodeFixed32 b.data (b.restartOffset + b.NumRestarts / 2 * 4))
            b.restartOffset = some (0, ns, vl, body) →
          b.GetMiddleKey = .ok (sliceOf b.data body ns)) ∧
      (DecodeEntry b.data
            (DecodeFixed32 b.data (b.restartOffset + b.NumRestarts / 2 * 4))
            b.restartOffset = none →
          b.GetMiddleKey = .error .BadEntryInBlock) ∧
      (∀ s ns vl body,
        DecodeEntry b.data
            (DecodeFixed32 b.data (b.restartOffset + b.NumRestarts / 2 * 4))
            b.restartOffset = some (s, ns, vl, body) → s ≠ 0 →
          b.GetMiddleKey = .error .BadEntryInBlock)) := by
  refine ⟨?_, ?_, ?_⟩
  · intro h
    simp only [Block.GetMiddleKey]
    rw [if_pos h]
  · intro h
    simp only [Block.GetMiddleKey]
    rw [if_neg (by omega), if_pos h]
  · intro h
    refine ⟨?_, ?_, ?_⟩
    · intro ns vl body hdec
      simp only [Block.GetMiddleKey]
      rw [if_neg (by omega), if_neg (by omega), hdec]
      simp
    · intro hdec
      simp only [Block.GetMiddleKey]
      rw [if_neg (by omega), if_neg (by omega), hdec]
    · intro s ns vl body hdec hs
      simp only [Block.GetMiddleKey]
      rw [if_neg (by omega), if_neg (by omega), hdec]
      simp [hs]

/-- Witness for `middle_key_spec` on the two-restart block `wdS3`:
`num_restarts = 2`, so the middle key is the restart entry of index 1,
`"def"`. -/
theorem middle_key_spec_witness :
    (Block.mkBlock wdS3).GetMiddleKey = .ok (sliceOf (Block.mkBlock wdS3).data 10 3) :=
  ((middle_key_spec (Block.mkBlock wdS3)).2.2 (by decide)).1 3 1 10 (by decide)

theorem advanceRestartIndexAux_spec (it : BlockIter) (current : Nat) :
    ∀ fuel idx, it.numRestarts - idx ≤ fuel →
      idx ≤ it.advanceRestartIndexAux current fuel idx ∧
      (it.advanceRestartIndexAux current fuel idx = idx ∨
        it.GetRestartPoint (it.advanceRestartIndexAux current fuel idx) <
          current) ∧
      ¬ (it.advanceRestartIndexAux current fuel idx + 1 < it.numRestarts ∧
          it.GetRestartPoint
              (it.advanceRestartIndexAux current fuel idx + 1) < current) := by
  intro fuel
  induction fuel with
  | zero =>
    intro idx hm
    have hz : it.advanceRestartIndexAux current 0 idx = idx := rfl
    rw [hz]
    exact ⟨le_refl _, Or.inl rfl, by rintro ⟨h1, -⟩; omega⟩
  | succ n ih =>
    intro idx hm
    simp only [BlockIter.advanceRestartIndexAux]
    by_cases h : idx + 1 < it.numRestarts ∧
        it.GetRestartPoint (idx + 1) < current
    · rw [if_pos h]
      obtain ⟨ha, hb, hc⟩ := ih (idx + 1) (by omega)
      refine ⟨by omega, Or.inr ?_, hc⟩
      rcases hb with he | h'
      · rw [he]; exact h.2
      · exact h'
    · rw [if_neg h]
      exact ⟨le_refl _, Or.inl rfl, h⟩

theorem advanceRestartIndex_spec (it : BlockIter) (current idx : Nat) :
    idx ≤ it.advanceRestartIndex current idx ∧
    (it.advanceRestartIndex current idx = idx ∨
      it.GetRestartPoint (it.advanceRestartIndex current idx) < current) ∧
    ¬ (it.advanceRestartIndex current idx + 1 < it.numRestarts ∧
        it.GetRestartPoint (it.advanceRestartIndex current idx + 1) <
          current) :=
  advanceRestartIndexAux_spec it current (it.numRestarts - idx) idx
    (le_refl _)

/-- C3, counterexample: on the block `wdC3` the entry at offset 4 sits
exactly at restart offset 1, and `restart_index` there depends on the
path taken, so no largest-index characterization of `restart_index` as a
function of `current` holds.  After `seek_to_first` then `next`, the
cursor stands at `current = 4` with `restart_index = 0` (the advance loop
in `ParseNextKey` uses the strict comparison
`GetRestartPoint(restart_index_ + 1) < current_`), so `restart_index` is
not the largest index `i` with `restart_offset[i] ≤ current` (which is
1).  After `seek("b")`, which lands through restart point 1, the cursor
stands at the same `current = 4` but with `restart_index = 1`, so
`restart_index` is not the largest index `i` with
`restart_offset[i] < current` either (which is 0). -/
theorem parse_next_restart_index_not_largest :
    ((witC3.SeekToFirst.Next).Valid = true ∧
     (witC3.SeekToFirst.Next).current = 4 ∧
     (witC3.SeekToFirst.Next).restartIndex = 0 ∧
     1 < (witC3.SeekToFirst.Next).numRestarts ∧
     (witC3.SeekToFirst.Next).GetRestartPoint 1 ≤
       (witC3.SeekToFirst.Next).current) ∧
    ((witC3.Seek [98]).Valid = true ∧
     (witC3.Seek [98]).current = 4 ∧
     (witC3.Seek [98]).restartIndex = 1 ∧
     (witC3.Seek [98]).GetRestartPoint 0 < (witC3.Seek [98]).current ∧
     ¬((witC3.Seek [98]).GetRestartPoint 1 <
        (witC3.Seek [98]).current)) := by
  decide

/-- C3, amended: after every successful parse-next step (given the
bracketing precondition on the pre-state, which every reachable state
satisfies), the restored invariant is the bracketing
`restart_offset[restart_index] ≤ current` and, when another restart point
exists, `current ≤ restart_offset[restart_index + 1]`.  No largest-index
characterization of `restart_index` as a function of `current` holds: an
entry lying exactly at restart offset `k` carries `restart_index = k - 1`
when reached by forward parsing from below but `restart_index = k` when
reached by a seek through restart point `k` (see
`parse_next_restart_index_not_largest` for both on the same block and
offset). -/
theorem parse_next_restores_restart_bracketing (it : BlockIter)
    (hpre : it.GetRestartPoint it.restartIndex ≤ it.NextEntryOffset)
    (hok : it.ParseNextKey.1 = true) :
    it.ParseNextKey.2.GetRestartPoint it.ParseNextKey.2.restartIndex ≤
      it.ParseNextKey.2.current ∧
    (it.ParseNextKey.2.restartIndex + 1 < it.ParseNextKey.2.numRestarts →
      it.ParseNextKey.2.current ≤
        it.ParseNextKey.2.GetRestartPoint
          (it.ParseNextKey.2.restartIndex + 1)) := by
  by_cases hcur : it.NextEntryOffset ≥ it.restarts
  · have : it.ParseNextKey.1 = false := by
      simp [BlockIter.ParseNextKey, if_pos hcur]
    rw [this] at hok
    cases hok
  · cases hdec : DecodeEntry it.data it.NextEntryOffset it.restarts with
    | none =>
      have : it.ParseNextKey.1 = false := by
        simp [BlockIter.ParseNextKey, if_neg hcur, hdec]
      rw [this] at hok
      cases hok
    | some tup =>
      obtain ⟨s, ns, vl, body⟩ := tup
      by_cases hkey : it.key.length < s
      · have : it.ParseNextKey.1 = false := by
          simp [BlockIter.ParseNextKey, if_neg hcur, hdec, if_pos hkey]
        rw [this] at hok
        cases hok
      · have h2 : it.ParseNextKey.2 =
            { it with current := it.NextEntryOffset,
                      key := if s = 0 then sliceOf it.data body ns
                             else it.key.take s ++ sliceOf it.data body ns,
                      value := (body + ns, vl),
                      restartIndex :=
                        it.advanceRestartIndex it.NextEntryOffset
                          it.restartIndex } := by
          simp [BlockIter.ParseNextKey, if_neg hcur, hdec, if_neg hkey]
        rw [h2]
        obtain ⟨ha, hb, hc⟩ :=
          advanceRestartIndex_spec it it.NextEntryOffset it.restartIndex
        constructor
        · simp only [BlockIter.GetRestartPoint]
          rcases hb with he | h'
          · rw [he]; exact hpre
          · exact le_of_lt h'
        · intro hlt
          simp only [BlockIter.GetRestartPoint] at hlt hc ⊢
          simp only [not_and, not_lt] at hc
          exact hc (by simpa using hlt)

/-- Witness for `parse_next_restores_restart_bracketing` at the first
parse step over the block `wdS2`. -/
theorem parse_next_restores_restart_bracketing_witness :
    (witS2.SeekToRestartPoint 0).ParseNextKey.2.GetRestartPoint
        (witS2.SeekToRestartPoint 0).ParseNextKey.2.restartIndex ≤
      (witS2.SeekToRestartPoint 0).ParseNextKey.2.current ∧
    ((witS2.SeekToRestartPoint 0).ParseNextKey.2.restartIndex + 1 <
        (witS2.SeekToRestartPoint 0).ParseNextKey.2.numRestarts →
      (witS2.SeekToRestartPoint 0).ParseNextKey.2.current ≤
        (witS2.SeekToRestartPoint 0).ParseNextKey.2.GetRestartPoint
          ((witS2.SeekToRestartPoint 0).ParseNextKey.2.restartIndex + 1)) :=
  parse_next_restores_restart_bracketing (witS2.SeekToRestartPoint 0)
    (by decide) (by decide)

theorem SeekToRestartPoint_status (it : BlockIter) (i : Nat) :
    (it.SeekToRestartPoint i).status = it.status := rfl

theorem status_ParseNextKey (it : BlockIter) :
    it.ParseNextKey.2.status = it.status ∨
      it.ParseNextKey.2.status = .BadEntryInBlock := by
  simp only [BlockIter.ParseNextKey]
  split
  · left; rfl
  · split
    · right; rfl
    · split
      · right; rfl
      · left; rfl

theorem status_parseUntil (bound : Nat) : ∀ fuel (it : BlockIter),
    (BlockIter.parseUntil bound fuel it).status = it.status ∨
      (BlockIter.parseUntil bound fuel it).status = .BadEntryInBlock := by
  intro fuel
  induction fuel with
  | zero => intro it; left; rfl
  | succ n ih =>
    intro it
    simp only [BlockIter.parseUntil]
    split
    · rcases ih it.ParseNextKey.2 with h | h <;> rw [h]
      · exact status_ParseNextKey it
      · right; rfl
    · exact status_ParseNextKey it

theorem status_seekLinear (target : List Nat) : ∀ fuel (it : BlockIter),
    (BlockIter.seekLinear target fuel it).status = it.status ∨
      (BlockIter.seekLinear target fuel it).status = .BadEntryInBlock := by
  intro fuel
  induction fuel with
  | zero => intro it; left; rfl
  | succ n ih =>
    intro it
    simp only [BlockIter.seekLinear]
    split
    · exact status_ParseNextKey it
    · split
      · exact status_ParseNextKey it
      · rcases ih it.ParseNextKey.2 with h | h <;> rw [h]
        · exact status_ParseNextKey it
        · right; rfl

theorem status_CompareBlockKey (it : BlockIter) (b : Nat) (target : List Nat) :
    (it.CompareBlockKey b target).2.status = it.status ∨
      (it.CompareBlockKey b target).2.status = .BadEntryInBlock := by
  simp only [BlockIter.CompareBlockKey]
  split
  · right; rfl
  · split
    · right; rfl
    · left; rfl

theorem status_binarySeekLoop (target : List Nat) :
    ∀ fuel (it : BlockIter) (l r : Nat),
      (BlockIter.binarySeekLoop target fuel it l r).2.status = it.status ∨
        (BlockIter.binarySeekLoop target fuel it l r).2.status =
          .BadEntryInBlock := by
  intro fuel
  induction fuel with
  | zero => intro it l r; left; rfl
  | succ n ih =>
    intro it l r
    simp only [BlockIter.binarySeekLoop]
    split
    · split
      · right; rfl
      · split
        · right; rfl
        · split
          · exact ih it _ _
          · split
            · exact ih it _ _
            · left; rfl
    · left; rfl

theorem status_BBIndexSettle (it : BlockIter) (target : List Nat)
    (blockIds : List Nat) (lb l : Nat) :
    (BlockIter.BBIndexSettle it target blockIds lb l).2.status = it.status ∨
      (BlockIter.BBIndexSettle it target blockIds lb l).2.status =
        .BadEntryInBlock := by
  simp only [BlockIter.BBIndexSettle]
  split
  · split
    · exact status_CompareBlockKey it _ target
    · exact status_CompareBlockKey it _ target
  · left; rfl

theorem status_BinarySeek (it : BlockIter) (target : List Nat) (l r : Nat) :
    (it.BinarySeek target l r).2.status = it.status ∨
      (it.BinarySeek target l r).2.status = .BadEntryInBlock :=
  status_binarySeekLoop target (r - l + 1) it l r

theorem status_bbIndexSeekLoop (target : List Nat) (blockIds : List Nat)
    (lb : Nat) : ∀ fuel (it : BlockIter) (l r : Nat),
      (BlockIter.bbIndexSeekLoop target blockIds lb fuel it l r).2.status =
          it.status ∨
        (BlockIter.bbIndexSeekLoop target blockIds lb fuel it l r).2.status =
          .BadEntryInBlock := by
  intro fuel
  induction fuel with
  | zero => intro it l r; left; rfl
  | succ n ih =>
    intro it l r
    simp only [BlockIter.bbIndexSeekLoop]
    split
    · split
      · exact status_CompareBlockKey it _ target
      · split
        · rcases ih (it.CompareBlockKey _ target).2 _ _ with h | h <;> rw [h]
          · exact status_CompareBlockKey it _ target
          · right; rfl
        · split
          · rcases status_BBIndexSettle (it.CompareBlockKey _ target).2 target
              blockIds lb l with h | h <;> rw [h]
            · exact status_CompareBlockKey it _ target
            · right; rfl
          · rcases ih (it.CompareBlockKey _ target).2 _ _ with h | h <;> rw [h]
            · exact status_CompareBlockKey it _ target
            · right; rfl
    · left; rfl

theorem status_BinaryBlockIndexSeek (it : BlockIter) (target : List Nat)
    (blockIds : List Nat) (l r : Nat) :
    (it.BinaryBlockIndexSeek target blockIds l r).2.status = it.status ∨
      (it.BinaryBlockIndexSeek target blockIds l r).2.status =
        .BadEntryInBlock :=
  status_bbIndexSeekLoop target blockIds l (r - l + 2) it l r

theorem status_Seek (it : BlockIter) (target : List Nat) :
    (it.Seek target).status = it.status ∨
      (it.Seek target).status = .BadEntryInBlock := by
  simp only [BlockIter.Seek]
  split
  · left; rfl
  · have hbase : ∀ r : Option Nat × BlockIter,
        r.2.status = it.status ∨ r.2.status = .BadEntryInBlock →
        (match r.1 with
          | none => r.2
          | some index =>
            BlockIter.seekLinear target (r.2.restarts + 1)
              (r.2.SeekToRestartPoint index)).status = it.status ∨
        (match r.1 with
          | none => r.2
          | some index =>
            BlockIter.seekLinear target (r.2.restarts + 1)
              (r.2.SeekToRestartPoint index)).status = .BadEntryInBlock := by
      intro r hr
      match hri : r.1 with
      | none => exact hr
      | some index =>
        rcases status_seekLinear target (r.2.restarts + 1)
            (r.2.SeekToRestartPoint index) with h | h <;> rw [h]
        · exact hr
        · right; rfl
    apply hbase
    split
    · simp only [BlockIter.PrefixSeek]
      split
      · left; rfl
      · split
        · left; rfl
        · exact status_BinaryBlockIndexSeek it target _ _ _
    · split
      · simp only [BlockIter.HashSeek]
        split
        · left; rfl
        · split
          · left; rfl
          · exact status_BinarySeek it target _ _
      · exact status_BinarySeek it target _ _

theorem status_SeekToFirst (it : BlockIter) :
    it.SeekToFirst.status = it.status ∨
      it.SeekToFirst.status = .BadEntryInBlock := by
  simp only [BlockIter.SeekToFirst]
  split
  · left; rfl
  · exact status_ParseNextKey (it.SeekToRestartPoint 0)

theorem status_SeekToLast (it : BlockIter) :
    it.SeekToLast.status = it.status ∨
      it.SeekToLast.status = .BadEntryInBlock := by
  simp only [BlockIter.SeekToLast]
  split
  · left; rfl
  · rw [← SeekToRestartPoint_status it (u32sub it.numRestarts 1)]
    exact status_parseUntil it.restarts (it.restarts + 1)
      (it.SeekToRestartPoint (u32sub it.numRestarts 1))

theorem status_Next (it : BlockIter) :
    it.Next.status = it.status ∨ it.Next.status = .BadEntryInBlock :=
  status_ParseNextKey it

theorem status_Prev (it : BlockIter) :
    it.Prev.status = it.status ∨ it.Prev.status = .BadEntryInBlock := by
  simp only [BlockIter.Prev]
  split
  · left; rfl
  · rename_i ri _
    rw [← SeekToRestartPoint_status it ri]
    exact status_parseUntil it.current (it.restarts + 1)
      (it.SeekToRestartPoint ri)

/-- C5: a decode failure during a cursor step eagerly invalidates the
cursor exactly as claimed, and the corruption is terminal.  First part: if
the parse-next step fails although entries remain before the restart array
(that is, on an entry decode failure or `shared` exceeding the
reconstructed key, the only two ways to fail there), the resulting cursor
has `current = restarts_`, `restart_index = num_restarts_`, a cleared key,
a cleared value and status `BadEntryInBlock`.  Second part: a restart-probe
decode failure (codec error or non-zero `shared`) in `CompareBlockKey`
produces `(1, CorruptionError)` in that same step.  Third part (no
self-heal): once the status is not OK, `seek`, `seek_to_first`,
`seek_to_last`, `next` and `prev` never return it to OK. -/
theorem corruption_invalidates_and_is_terminal (it : BlockIter)
    (target : List Nat) :
    (it.NextEntryOffset < it.restarts → it.ParseNextKey.1 = false →
      it.ParseNextKey.2.current = it.restarts ∧
      it.ParseNextKey.2.restartIndex = it.numRestarts ∧
      it.ParseNextKey.2.key = [] ∧ it.ParseNextKey.2.value = (0, 0) ∧
      it.ParseNextKey.2.status = .BadEntryInBlock) ∧
    (∀ bIdx, (DecodeEntry it.data (it.GetRestartPoint bIdx) it.restarts =
          none ∨
        (∃ s ns vl body,
          DecodeEntry it.data (it.GetRestartPoint bIdx) it.restarts =
            some (s, ns, vl, body) ∧ s ≠ 0)) →
      it.CompareBlockKey bIdx target = (1, it.CorruptionError)) ∧
    (it.status ≠ .OK →
      (it.Seek target).status ≠ .OK ∧ it.SeekToFirst.status ≠ .OK ∧
      it.SeekToLast.status ≠ .OK ∧ it.Next.status ≠ .OK ∧
      it.Prev.status ≠ .OK) := by
  refine ⟨?_, ?_, ?_⟩
  · intro hin hfail
    by_cases hcur : it.NextEntryOffset ≥ it.restarts
    · omega
    · cases hdec : DecodeEntry it.data it.NextEntryOffset it.restarts with
      | none =>
        have h2 : it.ParseNextKey.2 = it.CorruptionError := by
          simp [BlockIter.ParseNextKey, if_neg hcur, hdec]
        rw [h2]
        exact ⟨rfl, rfl, rfl, rfl, rfl⟩
      | some tup =>
        obtain ⟨s, ns, vl, body⟩ := tup
        by_cases hkey : it.key.length < s
        · have h2 : it.ParseNextKey.2 = it.CorruptionError := by
            simp [BlockIter.ParseNextKey, if_neg hcur, hdec, if_pos hkey]
          rw [h2]
          exact ⟨rfl, rfl, rfl, rfl, rfl⟩
        · have h1 : it.ParseNextKey.1 = true := by
            simp [BlockIter.ParseNextKey, if_neg hcur, hdec, if_neg hkey]
          rw [h1] at hfail
          cases hfail
  · intro bIdx hbad
    rcases hbad with hdec | ⟨s, ns, vl, body, hdec, hs⟩
    · simp [BlockIter.CompareBlockKey, hdec]
    · simp [BlockIter.CompareBlockKey, hdec, hs]
  · intro hst
    refine ⟨?_, ?_, ?_, ?_, ?_⟩
    · rcases status_Seek it target with h | h <;> rw [h] <;> simp_all
    · rcases status_SeekToFirst it with h | h <;> rw [h] <;> simp_all
    · rcases status_SeekToLast it with h | h <;> rw [h] <;> simp_all
    · rcases status_Next it with h | h <;> rw [h] <;> simp_all
    · rcases status_Prev it with h | h <;> rw [h] <;> simp_all

/-- Witness for `corruption_invalidates_and_is_terminal`: the corrupt
block `wdS4` corrupts the cursor at the first parse step, and the corrupt
cursor obtained from `seek_to_first` never heals. -/
theorem corruption_invalidates_and_is_terminal_witness :
    ((witS4.SeekToRestartPoint 0).ParseNextKey.2.current =
        (witS4.SeekToRestartPoint 0).restarts ∧
      (witS4.SeekToRestartPoint 0).ParseNextKey.2.restartIndex =
        (witS4.SeekToRestartPoint 0).numRestarts ∧
      (witS4.SeekToRestartPoint 0).ParseNextKey.2.key = [] ∧
      (witS4.SeekToRestartPoint 0).ParseNextKey.2.value = (0, 0) ∧
      (witS4.SeekToRestartPoint 0).ParseNextKey.2.status =
        .BadEntryInBlock) ∧
    ((witS4.SeekToFirst.Seek [97]).status ≠ .OK ∧
      witS4.SeekToFirst.SeekToFirst.status ≠ .OK ∧
      witS4.SeekToFirst.SeekToLast.status ≠ .OK ∧
      witS4.SeekToFirst.Next.status ≠ .OK ∧
      witS4.SeekToFirst.Prev.status ≠ .OK) :=
  ⟨(corruption_invalidates_and_is_terminal (witS4.SeekToRestartPoint 0)
      [97]).1 (by decide) (by decide),
    (corruption_invalidates_and_is_terminal witS4.SeekToFirst [97]).2.2
      (by decide)⟩

theorem parse_nil (data : List Nat) (limit fuel off : Nat) (pk : List Nat)
    (h : parseEntriesAux data limit fuel off pk = some []) : off = limit := by
  cases fuel with
  | zero =>
    simp only [parseEntriesAux] at h
    split at h
    · assumption
    · simp at h
  | succ n =>
    simp only [parseEntriesAux] at h
    split at h
    · split at h
      · assumption
      · simp at h
    · split at h
      · simp at h
      · rename_i s ns vl body hdec
        split at h
        · simp at h
        · split at h
          · simp at h
          · split at h
            · simp at h
            · simp at h

theorem parse_cons (data : List Nat) (limit fuel off : Nat) (pk : List Nat)
    (e : Entry) (rest : List Entry)
    (h : parseEntriesAux data limit fuel off pk = some (e :: rest)) :
    e.off = off ∧ off < limit ∧
    DecodeEntry data off limit =
      some (e.shared, e.nonShared, e.valueLen, e.body) ∧
    e.shared ≤ pk.length ∧ e.endOff ≤ limit ∧
    e.key = pk.take e.shared ++ sliceOf data e.body e.nonShared ∧
    ParsesFrom data limit e.endOff e.key rest := by
  cases fuel with
  | zero =>
    simp only [parseEntriesAux] at h
    split at h <;> simp at h
  | succ n =>
    simp only [parseEntriesAux] at h
    split at h
    · split at h <;> simp at h
    case isFalse hoff =>
      split at h
      · simp at h
      · rename_i s ns vl body hdec
        split at h
        · simp at h
        case isFalse hpk =>
          split at h
          · simp at h
          case isFalse hfit =>
            split at h
            · simp at h
            · rename_i rest' hrest
              simp only [Option.some.injEq, List.cons.injEq] at h
              obtain ⟨he, hrr⟩ := h
              subst hrr
              subst he
              refine ⟨rfl, by omega, hdec, ?_, ?_, rfl, ⟨n, hrest⟩⟩
              · show s ≤ pk.length
                omega
              · show body + ns + vl ≤ limit
                omega

theorem ParsesFrom_nil {data : List Nat} {limit off : Nat} {pk : List Nat}
    (h : ParsesFrom data limit off pk []) : off = limit := by
  obtain ⟨fuel, h⟩ := h
  exact parse_nil data limit fuel off pk h

theorem ParsesFrom_cons {data : List Nat} {limit off : Nat} {pk : List Nat}
    {e : Entry} {rest : List Entry}
    (h : ParsesFrom data limit off pk (e :: rest)) :
    e.off = off ∧ off < limit ∧
    DecodeEntry data off limit =
      some (e.shared, e.nonShared, e.valueLen, e.body) ∧
    e.shared ≤ pk.length ∧ e.endOff ≤ limit ∧
    e.key = pk.take e.shared ++ sliceOf data e.body e.nonShared ∧
    ParsesFrom data limit e.endOff e.key rest := by
  obtain ⟨fuel, h⟩ := h
  exact parse_cons data limit fuel off pk e rest h

theorem ParsesFrom_length (data : List Nat) (limit : Nat) :
    ∀ (tail : List Entry) (off : Nat) (pk : List Nat),
      ParsesFrom data limit off pk tail → off + 3 * tail.length ≤ limit := by
  intro tail
  induction tail with
  | nil =>
    intro off pk h
    rw [ParsesFrom_nil h]
    simp only [List.length_nil]
    omega
  | cons e rest ih =>
    intro off pk h
    obtain ⟨hoff, hlt, hdec, hpk, hend, hkey, hrest⟩ := ParsesFrom_cons h
    obtain ⟨hb, -, -⟩ := DecodeEntry_some_facts _ _ _ _ _ _ _ hdec
    have hr := ih _ _ hrest
    simp only [Entry.endOff] at hr
    simp only [List.length_cons]
    omega

theorem ParsesFrom_drop (data : List Nat) (limit : Nat) :
    ∀ (tail : List Entry) (off : Nat) (pk : List Nat) (j : Nat)
      (hj : j < tail.length),
      ParsesFrom data limit off pk tail →
      ParsesFrom data limit (tail[j].off)
        (if j = 0 then pk else (tail.getD (j - 1) default).key)
        (tail.drop j) := by
  intro tail
  induction tail with
  | nil => intro off pk j hj; simp at hj
  | cons e rest ih =>
    intro off pk j hj h
    obtain ⟨hoff, -, -, -, -, -, hrest⟩ := ParsesFrom_cons h
    cases j with
    | zero => simpa [hoff] using h
    | succ j' =>
      have hj' : j' < rest.length := by
        simp only [List.length_cons] at hj
        omega
      have := ih e.endOff e.key j' hj' hrest
      cases j' with
      | zero => simpa using this
      | succ j'' => simpa using this

theorem ParsesFrom_first_off {data : List Nat} {limit off : Nat}
    {pk : List Nat} {tail : List Entry} (h : ParsesFrom data limit off pk tail)
    (h0 : 0 < tail.length) : tail[0].off = off := by
  cases tail with
  | nil => simp at h0
  | cons e rest => exact (ParsesFrom_cons h).1

theorem ParsesFrom_entry_facts {data : List Nat} {limit off : Nat}
    {pk : List Nat} {tail : List Entry} (h : ParsesFrom data limit off pk tail)
    (j : Nat) (hj : j < tail.length) :
    DecodeEntry data (tail[j].off) limit =
      some (tail[j].shared, tail[j].nonShared, tail[j].valueLen,
        tail[j].body) ∧
    tail[j].off + 3 ≤ tail[j].endOff ∧ tail[j].endOff ≤ limit ∧
    tail[j].off < limit ∧
    (tail[j].shared = 0 →
      tail[j].key = sliceOf data (tail[j].body) (tail[j].nonShared)) := by
  have hd := ParsesFrom_drop data limit tail off pk j hj h
  rw [List.drop_eq_getElem_cons hj] at hd
  obtain ⟨h1, h2, h3, h4, h5, h6, h7⟩ := ParsesFrom_cons hd
  obtain ⟨hb, hbl, -⟩ := DecodeEntry_some_facts _ _ _ _ _ _ _ h3
  refine ⟨h3, ?_, h5, h2, ?_⟩
  · simp only [Entry.endOff]
    omega
  · intro hs
    rw [h6, hs]
    simp

theorem ParsesFrom_off_succ {data : List Nat} {limit off : Nat}
    {pk : List Nat} {tail : List Entry} (h : ParsesFrom data limit off pk tail)
    (j : Nat) (hj : j + 1 < tail.length) :
    tail[j + 1].off = (tail[j]).endOff := by
  have hjlt : j < tail.length := by omega
  have hd := ParsesFrom_drop data limit tail off pk j hjlt h
  rw [List.drop_eq_getElem_cons hjlt] at hd
  obtain ⟨-, -, -, -, -, -, hrest⟩ := ParsesFrom_cons hd
  have hlen : 0 < (tail.drop (j + 1)).length := by
    simp only [List.length_drop]
    omega
  have hf := ParsesFrom_first_off hrest hlen
  have he : (tail.drop (j + 1))[0] = tail[j + 1] := by
    simp [List.getElem_drop]
  rw [he] at hf
  exact hf

theorem ParsesFrom_off_mono {data : List Nat} {limit off : Nat}
    {pk : List Nat} {tail : List Entry}
    (h : ParsesFrom data limit off pk tail) :
    ∀ j j' (hj : j < tail.length) (hj' : j' < tail.length), j < j' →
      tail[j].off < tail[j'].off := by
  intro j j'
  induction j' with
  | zero => intro hj hj' hlt; omega
  | succ k ih =>
    intro hj hj' hlt
    have hk : k < tail.length := by omega
    have hsucc := ParsesFrom_off_succ h k hj'
    have hstep := (ParsesFrom_entry_facts h k hk).2.1
    by_cases hjk : j = k
    · subst hjk
      rw [hsucc]
      omega
    · have hjk' : j < k := by omega
      have := ih hj hk hjk'
      rw [hsucc]
      omega

theorem SameBlock_refl (it : BlockIter) : SameBlock it it :=
  ⟨rfl, rfl, rfl, rfl, rfl, rfl, rfl, rfl⟩

theorem SameBlock_trans {a b c : BlockIter} (h1 : SameBlock a b)
    (h2 : SameBlock b c) : SameBlock a c := by
  obtain ⟨x1, x2, x3, x4, x5, x6, x7, x8⟩ := h1
  obtain ⟨y1, y2, y3, y4, y5, y6, y7, y8⟩ := h2
  exact ⟨y1.trans x1, y2.trans x2, y3.trans x3, y4.trans x4, y5.trans x5,
    y6.trans x6, y7.trans x7, y8.trans x8⟩

theorem ParseNextKey_atEnd (it : BlockIter)
    (hne : it.NextEntryOffset ≥ it.restarts) :
    it.ParseNextKey =
      (false, { it with current := it.restarts,
                        restartIndex := it.numRestarts }) := by
  simp only [BlockIter.ParseNextKey]
  rw [if_pos hne]

theorem ParseNextKey_step (it : BlockIter) (pk : List Nat) (e : Entry)
    (rest : List Entry) (hne : it.NextEntryOffset = e.off)
    (hp : ParsesFrom it.data it.restarts e.off pk (e :: rest))
    (hk1 : it.key.take e.shared = pk.take e.shared)
    (hk2 : e.shared ≤ it.key.length) :
    it.ParseNextKey =
      (true, { it with
                current := e.off, key := e.key,
                value := (e.body + e.nonShared, e.valueLen),
                restartIndex :=
                  it.advanceRestartIndex e.off it.restartIndex }) := by
  obtain ⟨hoff, hlt, hdec, hpk, hend, hkey, hrest⟩ := ParsesFrom_cons hp
  have hkeyeq : (if e.shared = 0 then sliceOf it.data e.body e.nonShared
      else it.key.take e.shared ++ sliceOf it.data e.body e.nonShared) =
      e.key := by
    by_cases hs : e.shared = 0
    · rw [if_pos hs, hkey, hs]
      simp
    · rw [if_neg hs, hkey, hk1]
  simp only [BlockIter.ParseNextKey, hne]
  rw [if_neg (by omega), hdec]
  simp only
  rw [if_neg (by omega), hkeyeq]

theorem NextEntryOffset_state (it : BlockIter) (e : Entry) (ri : Nat)
    (hlt : e.endOff < 4294967296) :
    BlockIter.NextEntryOffset
      { it with current := e.off, key := e.key,
                value := (e.body + e.nonShared, e.valueLen),
                restartIndex := ri } = e.endOff := by
  simp only [BlockIter.NextEntryOffset, Entry.endOff] at *
  rw [Nat.add_assoc]
  exact Nat.mod_eq_of_lt (by omega)

theorem seekLinear_spec (target : List Nat) :
    ∀ (tail : List Entry) (fuel : Nat) (it : BlockIter) (pk : List Nat),
      it.restarts < 4294967296 →
      ParsesFrom it.data it.restarts it.NextEntryOffset pk tail →
      (∀ e rest, tail = e :: rest →
        it.key.take e.shared = pk.take e.shared ∧
          e.shared ≤ it.key.length) →
      tail.length < fuel →
      (∃ pre e post, tail = pre ++ e :: post ∧
        (∀ x ∈ pre, it.cmp x.key target < 0) ∧ 0 ≤ it.cmp e.key target ∧
        SameBlock it (BlockIter.seekLinear target fuel it) ∧
        AtEntryKV (BlockIter.seekLinear target fuel it) e ∧
        e.off < it.restarts) ∨
      ((∀ x ∈ tail, it.cmp x.key target < 0) ∧
        SameBlock it (BlockIter.seekLinear target fuel it) ∧
        (BlockIter.seekLinear target fuel it).current = it.restarts ∧
        (BlockIter.seekLinear target fuel it).restartIndex =
          it.numRestarts) := by
  intro tail
  induction tail with
  | nil =>
    intro fuel it pk hro hp hcompat hfuel
    match fuel with
    | f + 1 =>
      have hend := ParsesFrom_nil hp
      have hstep := ParseNextKey_atEnd it (le_of_eq hend.symm)
      right
      simp only [BlockIter.seekLinear, hstep]
      refine ⟨by simp, ?_, rfl, rfl⟩
      exact ⟨rfl, rfl, rfl, rfl, rfl, rfl, rfl, rfl⟩
  | cons e rest ih =>
    intro fuel it pk hro hp hcompat hfuel
    match fuel with
    | f + 1 =>
      obtain ⟨hoff, hlt, hdec, hpk, hend, hkey, hrest⟩ := ParsesFrom_cons hp
      obtain ⟨hk1, hk2⟩ := hcompat e rest rfl
      rw [← hoff] at hp
      have hlt' : e.off < it.restarts := by rw [hoff]; exact hlt
      have hstep := ParseNextKey_step it pk e rest hoff.symm hp hk1 hk2
      simp only [BlockIter.seekLinear, hstep]
      rw [if_neg (by simp)]
      by_cases hcmp : 0 ≤ it.cmp e.key target
      · rw [if_pos hcmp]
        left
        refine ⟨[], e, rest, by simp, by simp, hcmp, ?_, ⟨rfl, rfl, rfl⟩,
          hlt'⟩
        exact ⟨rfl, rfl, rfl, rfl, rfl, rfl, rfl, rfl⟩
      · rw [if_neg hcmp]
        have hcmplt : it.cmp e.key target < 0 := by omega
        set st : BlockIter :=
          { it with
              current := e.off, key := e.key,
              value := (e.body + e.nonShared, e.valueLen),
              restartIndex :=
                it.advanceRestartIndex e.off it.restartIndex } with hst
        have hsb1 : SameBlock it st :=
          ⟨rfl, rfl, rfl, rfl, rfl, rfl, rfl, rfl⟩
        have hne2 : st.NextEntryOffset = e.endOff :=
          NextEntryOffset_state it e _ (by omega)
        have hp2 : ParsesFrom st.data st.restarts st.NextEntryOffset e.key
            rest := by
          rw [hne2]
          exact hrest
        have hcompat2 : ∀ e' rest', rest = e' :: rest' →
            st.key.take e'.shared = e.key.take e'.shared ∧
              e'.shared ≤ st.key.length := by
          intro e' rest' hr
          subst hr
          obtain ⟨-, -, -, hpk', -, -, -⟩ := ParsesFrom_cons hrest
          exact ⟨rfl, hpk'⟩
        have := ih f st e.key hro hp2 hcompat2 (by
          simp only [List.length_cons] at hfuel
          omega)
        rcases this with ⟨pre', e', post', heq, hpre', hcmp', hsb', hat',
            hofflt'⟩ | ⟨hall, hsb', hcur', hri'⟩
        · left
          refine ⟨e :: pre', e', post', by rw [heq]; rfl, ?_, ?_,
            SameBlock_trans hsb1 hsb', hat', hofflt'⟩
          · intro x hx
            rcases List.mem_cons.mp hx with hx | hx
            · rw [hx]; exact hcmplt
            · exact hpre' x hx
          · exact hcmp'
        · right
          refine ⟨?_, SameBlock_trans hsb1 hsb', hcur', hri'⟩
          intro x hx
          rcases List.mem_cons.mp hx with hx | hx
          · rw [hx]; exact hcmplt
          · exact hall x hx

theorem parseUntil_spec (bound : Nat) :
    ∀ (tail : List Entry) (fuel : Nat) (it : BlockIter) (pk : List Nat),
      it.restarts < 4294967296 →
      ParsesFrom it.data it.restarts it.NextEntryOffset pk tail →
      (∀ e rest, tail = e :: rest →
        it.key.take e.shared = pk.take e.shared ∧
          e.shared ≤ it.key.length) →
      tail.length < fuel →
      (∃ pre e post, tail = pre ++ e :: post ∧
        (∀ x ∈ pre, x.endOff < bound) ∧ bound ≤ e.endOff ∧
        SameBlock it (BlockIter.parseUntil bound fuel it) ∧
        AtEntryKV (BlockIter.parseUntil bound fuel it) e ∧
        e.off < it.restarts) ∨
      ((∀ x ∈ tail, x.endOff < bound) ∧
        SameBlock it (BlockIter.parseUntil bound fuel it) ∧
        (BlockIter.parseUntil bound fuel it).current = it.restarts ∧
        (BlockIter.parseUntil bound fuel it).restartIndex =
          it.numRestarts) := by
  intro tail
  induction tail with
  | nil =>
    intro fuel it pk hro hp hcompat hfuel
    match fuel with
    | f + 1 =>
      have hend := ParsesFrom_nil hp
      have hstep := ParseNextKey_atEnd it (le_of_eq hend.symm)
      right
      simp only [BlockIter.parseUntil, hstep]
      rw [if_neg (by simp)]
      refine ⟨by simp, ?_, rfl, rfl⟩
      exact ⟨rfl, rfl, rfl, rfl, rfl, rfl, rfl, rfl⟩
  | cons e rest ih =>
    intro fuel it pk hro hp hcompat hfuel
    match fuel with
    | f + 1 =>
      obtain ⟨hoff, hlt, hdec, hpk, hend, hkey, hrest⟩ := ParsesFrom_cons hp
      obtain ⟨hk1, hk2⟩ := hcompat e rest rfl
      rw [← hoff] at hp
      have hlt' : e.off < it.restarts := by rw [hoff]; exact hlt
      have hstep := ParseNextKey_step it pk e rest hoff.symm hp hk1 hk2
      simp only [BlockIter.parseUntil, hstep]
      set st : BlockIter :=
        { it with
            current := e.off, key := e.key,
            value := (e.body + e.nonShared, e.valueLen),
            restartIndex :=
              it.advanceRestartIndex e.off it.restartIndex } with hst
      have hsb1 : SameBlock it st :=
        ⟨rfl, rfl, rfl, rfl, rfl, rfl, rfl, rfl⟩
      have hne2 : st.NextEntryOffset = e.endOff :=
        NextEntryOffset_state it e _ (by omega)
      by_cases hb : e.endOff < bound
      · rw [if_pos (by rw [hne2]; exact ⟨by simp, hb⟩)]
        have hp2 : ParsesFrom st.data st.restarts st.NextEntryOffset e.key
            rest := by
          rw [hne2]
          exact hrest
        have hcompat2 : ∀ e' rest', rest = e' :: rest' →
            st.key.take e'.shared = e.key.take e'.shared ∧
              e'.shared ≤ st.key.length := by
          intro e' rest' hr
          subst hr
          obtain ⟨-, -, -, hpk', -, -, -⟩ := ParsesFrom_cons hrest
          exact ⟨rfl, hpk'⟩
        have := ih f st e.key hro hp2 hcompat2 (by
          simp only [List.length_cons] at hfuel
          omega)
        rcases this with ⟨pre', e', post', heq, hpre', hb', hsb', hat',
            hofflt'⟩ | ⟨hall, hsb', hcur', hri'⟩
        · left
          refine ⟨e :: pre', e', post', by rw [heq]; rfl, ?_, hb',
            SameBlock_trans hsb1 hsb', hat', hofflt'⟩
          intro x hx
          rcases List.mem_cons.mp hx with hx | hx
          · rw [hx]; exact hb
          · exact hpre' x hx
        · right
          refine ⟨?_, SameBlock_trans hsb1 hsb', hcur', hri'⟩
          intro x hx
          rcases List.mem_cons.mp hx with hx | hx
          · rw [hx]; exact hb
          · exact hall x hx
      · rw [if_neg (by rw [hne2]; rintro ⟨-, hc⟩; omega)]
        left
        refine ⟨[], e, rest, by simp, by simp, by omega, hsb1,
          ⟨rfl, rfl, rfl⟩, hlt'⟩

theorem WFBlock_ro_lt {cmp : List Nat → List Nat → Int} {data : List Nat}
    {ro nr : Nat} {es : List Entry} (W : WFBlock cmp data ro nr es) :
    ro < 4294967296 := by
  have h1 := W.roDef
  have h2 := W.maxSize
  have h3 := W.nrPos
  omega

theorem WFBlock_nr_lt {cmp : List Nat → List Nat → Int} {data : List Nat}
    {ro nr : Nat} {es : List Entry} (W : WFBlock cmp data ro nr es) :
    nr < 1073741824 := by
  have h1 := W.roDef
  have h2 := W.maxSize
  omega

theorem WFBlock_parses {cmp : List Nat → List Nat → Int} {data : List Nat}
    {ro nr : Nat} {es : List Entry} (W : WFBlock cmp data ro nr es) :
    ParsesFrom data ro 0 [] es :=
  ⟨ro, W.parsed⟩

theorem WFBlock_len_le {cmp : List Nat → List Nat → Int} {data : List Nat}
    {ro nr : Nat} {es : List Entry} (W : WFBlock cmp data ro nr es) :
    es.length ≤ ro := by
  have := ParsesFrom_length data ro es 0 [] (WFBlock_parses W)
  omega

theorem WFBlock_off_inj {cmp : List Nat → List Nat → Int} {data : List Nat}
    {ro nr : Nat} {es : List Entry} (W : WFBlock cmp data ro nr es)
    (j j' : Nat) (hj : j < es.length) (hj' : j' < es.length)
    (h : es[j].off = es[j'].off) : j = j' := by
  rcases Nat.lt_trichotomy j j' with hlt | heq | hgt
  · have := ParsesFrom_off_mono (WFBlock_parses W) j j' hj hj' hlt
    omega
  · exact heq
  · have := ParsesFrom_off_mono (WFBlock_parses W) j' j hj' hj hgt
    omega

theorem WFBlock_key_sorted {cmp : List Nat → List Nat → Int}
    {data : List Nat} {ro nr : Nat} {es : List Entry}
    (W : WFBlock cmp data ro nr es) (hcmp : IsComparator cmp) :
    ∀ j j' (hj : j < es.length) (hj' : j' < es.length), j < j' →
      cmp (es[j].key) (es[j'].key) < 0 := by
  intro j j'
  induction j' with
  | zero => intro hj hj' hlt; omega
  | succ k ih =>
    intro hj hj' hlt
    have hk : k < es.length := by omega
    have hs := W.sorted k hj'
    simp only [List.get_eq_getElem] at hs
    by_cases hjk : j = k
    · subst hjk
      exact hs
    · exact hcmp.lt_trans _ _ _ (ih hj hk (by omega)) hs

theorem binarySeekLoop_spec (cmp : List Nat → List Nat → Int)
    (data : List Nat) (ro nr : Nat) (es : List Entry) (target : List Nat)
    (it : BlockIter) (W : WFBlock cmp data ro nr es) (hd : it.data = data)
    (hr : it.restarts = ro) (hc : it.cmp = cmp) :
    ∀ fuel l r, l ≤ r → r < nr → r - l < fuel →
      (l = 0 ∨ ∃ j, ∃ hj : j < es.length,
        es[j].off = DecodeFixed32 data (ro + l * 4) ∧ es[j].shared = 0 ∧
        cmp (es[j].key) target ≤ 0) →
      ∃ idx, BlockIter.binarySeekLoop target fuel it l r = (some idx, it) ∧
        idx ≤ r ∧
        (idx = 0 ∨ ∃ j, ∃ hj : j < es.length,
          es[j].off = DecodeFixed32 data (ro + idx * 4) ∧
          es[j].shared = 0 ∧ cmp (es[j].key) target ≤ 0) := by
  intro fuel
  induction fuel with
  | zero => intro l r hlr hrnr hfuel hinv; omega
  | succ f ih =>
    intro l r hlr hrnr hfuel hinv
    by_cases hlt : l < r
    · have hmideq : BlockIter.binarySeekMid l r = (l + r + 1) / 2 := by
        unfold BlockIter.binarySeekMid
        rw [Nat.mod_eq_of_lt (by have := WFBlock_nr_lt W; omega)]
      have hmid1 : l + 1 ≤ (l + r + 1) / 2 := by omega
      have hmid2 : (l + r + 1) / 2 ≤ r := by omega
      obtain ⟨j, hj, hoffj, hsj⟩ := W.restartEntry ((l + r + 1) / 2)
        (by omega)
      simp only [List.get_eq_getElem] at hoffj hsj
      obtain ⟨hdecj, -, -, -, hkeyj⟩ :=
        ParsesFrom_entry_facts (WFBlock_parses W) j hj
      have hgrp : it.GetRestartPoint (BlockIter.binarySeekMid l r) =
          es[j].off := by
        rw [BlockIter.GetRestartPoint, hd, hr, hmideq, hoffj]
      simp only [BlockIter.binarySeekLoop]
      rw [if_pos hlt, hgrp, hd, hr, hdecj, hsj]
      simp only
      rw [if_neg (by omega)]
      rw [← hkeyj hsj, hc]
      rcases Int.lt_trichotomy (cmp (es[j].key) target) 0 with hcv | hcv | hcv
      · rw [if_pos hcv]
        have := ih ((l + r + 1) / 2) r (by omega) hrnr (by omega)
          (Or.inr ⟨j, hj, hoffj, hsj, le_of_lt hcv⟩)
        rwa [hmideq]
      · rw [if_neg (by omega), if_neg (by omega)]
        refine ⟨BlockIter.binarySeekMid l r, rfl, by rw [hmideq]; omega,
          Or.inr ⟨j, hj, ?_, hsj, le_of_eq hcv⟩⟩
        rw [hmideq]
        exact hoffj
      · rw [if_neg (by omega), if_pos hcv]
        have hsubeq : u32sub (BlockIter.binarySeekMid l r) 1 =
            (l + r + 1) / 2 - 1 := by
          rw [hmideq]
          unfold u32sub
          have := WFBlock_nr_lt W
          omega
        rw [hsubeq]
        have := ih l ((l + r + 1) / 2 - 1) (by omega) (by omega) (by omega)
          hinv
        obtain ⟨idx, heq, hle, hinv'⟩ := this
        exact ⟨idx, heq, by omega, hinv'⟩
    · simp only [BlockIter.binarySeekLoop]
      rw [if_neg hlt]
      exact ⟨l, rfl, by omega, hinv⟩

theorem getElem_append_middle (pre : List Entry) (e : Entry)
    (post : List Entry) (h : pre.length < (pre ++ e :: post).length) :
    (pre ++ e :: post)[pre.length] = e := by
  induction pre with
  | nil => simp
  | cons a as ih =>
    simp only [List.cons_append, List.length_cons, List.getElem_cons_succ]
    exact ih (by simp)

theorem getElem_eq_drop_getD (es : List Entry) (j k : Nat) (hjk : j ≤ k)
    (hk : k < es.length) : es[k] = (es.drop j).getD (k - j) default := by
  have h1 : es.getD k default = (es.drop j).getD (k - j) default := by
    rw [List.getD_eq_getElem?_getD, List.getD_eq_getElem?_getD,
      List.getElem?_drop]
    congr 2
    omega
  rw [← h1, List.getD_eq_getElem]

theorem entry_getD_append_left (a b : List Entry) (i : Nat)
    (h : i < a.length) : (a ++ b).getD i default = a.getD i default := by
  simp [List.getD_eq_getElem?_getD, List.getElem?_append, h]

theorem walk_from_restart (cmp : List Nat → List Nat → Int)
    (data : List Nat) (ro nr : Nat) (es : List Entry) (target : List Nat)
    (it : BlockIter) (idx j : Nat) (W : WFBlock cmp data ro nr es)
    (hd : it.data = data) (hr : it.restarts = ro) (hc : it.cmp = cmp)
    (hj : j < es.length)
    (hoffj : es[j].off = DecodeFixed32 data (ro + idx * 4))
    (hsj : es[j].shared = 0) :
    (∃ m, ∃ hm : m < es.length, j ≤ m ∧
      SameBlock it
        (BlockIter.seekLinear target (it.restarts + 1)
          (it.SeekToRestartPoint idx)) ∧
      AtEntryKV
        (BlockIter.seekLinear target (it.restarts + 1)
          (it.SeekToRestartPoint idx)) es[m] ∧
      es[m].off < ro ∧ 0 ≤ cmp (es[m].key) target ∧
      (∀ k (hk : k < es.length), j ≤ k → k < m →
        cmp (es[k].key) target < 0)) ∨
    ((∀ k (hk : k < es.length), j ≤ k → cmp (es[k].key) target < 0) ∧
      SameBlock it
        (BlockIter.seekLinear target (it.restarts + 1)
          (it.SeekToRestartPoint idx)) ∧
      (BlockIter.seekLinear target (it.restarts + 1)
          (it.SeekToRestartPoint idx)).current = ro ∧
      (BlockIter.seekLinear target (it.restarts + 1)
          (it.SeekToRestartPoint idx)).restartIndex = it.numRestarts) := by
  have hro32 := WFBlock_ro_lt W
  have hlen := WFBlock_len_le W
  set st0 := it.SeekToRestartPoint idx with hst0
  have hsb0 : SameBlock it st0 := ⟨rfl, rfl, rfl, rfl, rfl, rfl, rfl, rfl⟩
  have hrp : it.GetRestartPoint idx = es[j].off := by
    rw [BlockIter.GetRestartPoint, hd, hr, hoffj]
  obtain ⟨-, -, -, hofflt, -⟩ :=
    ParsesFrom_entry_facts (WFBlock_parses W) j hj
  have hne0 : st0.NextEntryOffset = es[j].off := by
    simp only [hst0, BlockIter.SeekToRestartPoint, BlockIter.NextEntryOffset,
      hrp]
    rw [Nat.add_zero]
    exact Nat.mod_eq_of_lt (by omega)
  have hdrop := ParsesFrom_drop data ro es 0 [] j hj (WFBlock_parses W)
  have hp0 : ParsesFrom st0.data st0.restarts st0.NextEntryOffset
      (if j = 0 then ([] : List Nat) else (es.getD (j - 1) default).key)
      (es.drop j) := by
    have hd0 : st0.data = data := by
      rw [show st0.data = it.data from rfl, hd]
    have hr0 : st0.restarts = it.restarts := rfl
    rw [hd0, hr0, hr, hne0]
    exact hdrop
  have hcompat0 : ∀ e rest, es.drop j = e :: rest →
      st0.key.take e.shared =
        (if j = 0 then ([] : List Nat)
         else (es.getD (j - 1) default).key).take e.shared ∧
      e.shared ≤ st0.key.length := by
    intro e rest hdr
    have he : e = es[j] := by
      have := List.drop_eq_getElem_cons hj
      rw [hdr] at this
      exact (List.cons.injEq _ _ _ _ ▸ this).1
    rw [he, hsj]
    simp
  have hfuel0 : (es.drop j).length < st0.restarts + 1 := by
    have hr0 : st0.restarts = it.restarts := rfl
    rw [hr0, hr]
    simp only [List.length_drop]
    omega
  have hwalk := seekLinear_spec target (es.drop j) (st0.restarts + 1) st0 _
    (by rw [show st0.restarts = it.restarts from rfl, hr]; omega)
    hp0 hcompat0 hfuel0
  have hrw : BlockIter.seekLinear target (st0.restarts + 1) st0 =
      BlockIter.seekLinear target (it.restarts + 1)
        (it.SeekToRestartPoint idx) := rfl
  rcases hwalk with ⟨pre, e, post, heq, hpre, hcmpe, hsb, hat, hoffe⟩ |
    ⟨hall, hsb, hcur, hri⟩
  · left
    have hmlt : j + pre.length < es.length := by
      have h1 : (es.drop j).length = pre.length + (e :: post).length := by
        rw [heq]
        simp
      simp only [List.length_drop, List.length_cons] at h1
      omega
    have hem : es[j + pre.length] = e := by
      rw [getElem_eq_drop_getD es j (j + pre.length) (by omega) hmlt, heq]
      have hidx : j + pre.length - j = pre.length := by omega
      rw [hidx, List.getD_eq_getElem?_getD, List.getElem?_append]
      simp
    refine ⟨j + pre.length, hmlt, by omega, SameBlock_trans hsb0 (hrw ▸ hsb),
      ?_, ?_, ?_, ?_⟩
    · rw [hem]
      exact hrw ▸ hat
    · rw [hem]
      have hr0 : st0.restarts = it.restarts := rfl
      rw [hr0, hr] at hoffe
      exact hoffe
    · rw [hem]
      have hc0 : st0.cmp = cmp := by rw [show st0.cmp = it.cmp from rfl, hc]
      rw [← hc0]
      exact hcmpe
    · intro k hk hjk hkm
      have hkjpre : k - j < pre.length := by omega
      have hkpre : es[k] = pre.getD (k - j) default := by
        rw [getElem_eq_drop_getD es j k (by omega) hk, heq]
        exact entry_getD_append_left pre (e :: post) (k - j) hkjpre
      have hmem : es[k] ∈ pre := by
        rw [hkpre, List.getD_eq_getElem pre default hkjpre]
        exact List.getElem_mem _
      have := hpre es[k] hmem
      have hc0 : st0.cmp = cmp := by rw [show st0.cmp = it.cmp from rfl, hc]
      rw [← hc0]
      exact this
  · right
    refine ⟨?_, SameBlock_trans hsb0 (hrw ▸ hsb), ?_, ?_⟩
    · intro k hk hjk
      have hkd : k - j < (es.drop j).length := by
        simp only [List.length_drop]
        omega
      have hkdrop : es[k] ∈ es.drop j := by
        rw [getElem_eq_drop_getD es j k (by omega) hk,
          List.getD_eq_getElem _ default hkd]
        exact List.getElem_mem _
      have := hall es[k] hkdrop
      have hc0 : st0.cmp = cmp := by rw [show st0.cmp = it.cmp from rfl, hc]
      rw [← hc0]
      exact this
    · rw [← hrw, hcur, show st0.restarts = it.restarts from rfl, hr]
    · rw [← hrw, hri]
      rfl

theorem Valid_false_of_invalid (it : BlockIter)
    (h : it.current = it.restarts) : it.Valid = false := by
  simp [BlockIter.Valid, h]

/-- C1: seek monotonicity for an initialized, non-corrupt total-order
cursor (no auxiliary index attached, the path through `BinarySeek`) over a
well-formed block: after `seek(target)`, if the cursor is valid it stands
at some entry `i` whose reconstructed key compares `≥ target`, and either
`i = 0` (the block's first entry) or the key of entry `i - 1` compares
`< target`; and if no entry's key compares `≥ target`, the cursor ends
invalid. -/
theorem seek_monotone (cmp : List Nat → List Nat → Int) (data : List Nat)
    (ro nr : Nat) (es : List Entry) (it : BlockIter) (target : List Nat)
    (hcmp : IsComparator cmp) (W : WFBlock cmp data ro nr es)
    (hit : IterOn it cmp data ro nr) (hhi : it.hashIndex = none)
    (hpi : it.prefixIndex = none) (_hst : it.status = .OK) :
    ((it.Seek target).Valid = true →
      ∃ i, ∃ hi : i < es.length,
        AtEntryKV (it.Seek target) es[i] ∧
        (it.Seek target).key = es[i].key ∧
        0 ≤ cmp (es[i].key) target ∧
        (i = 0 ∨ ∀ hi2 : i - 1 < es.length,
          cmp (es[i - 1].key) target < 0)) ∧
    ((∀ i (hi : i < es.length), cmp (es[i].key) target < 0) →
      (it.Seek target).Valid = false) := by
  obtain ⟨hc, hinit, hd, hr, hn⟩ := hit
  have hro32 := WFBlock_ro_lt W
  have hnr32 := WFBlock_nr_lt W
  have hnr1 := W.nrPos
  have hsub : u32sub it.numRestarts 1 = nr - 1 := by
    rw [hn]
    unfold u32sub
    omega
  obtain ⟨idx, heqloop, hidxle, hinv⟩ := binarySeekLoop_spec cmp data ro nr
    es target it W hd hr hc (nr - 1 - 0 + 1) 0 (nr - 1) (by omega)
    (by omega) (by omega) (Or.inl rfl)
  have hbs : it.BinarySeek target 0 (u32sub it.numRestarts 1) =
      (some idx, it) := by
    rw [BlockIter.BinarySeek, hsub]
    exact heqloop
  have hseekeq : it.Seek target =
      BlockIter.seekLinear target (it.restarts + 1)
        (it.SeekToRestartPoint idx) := by
    simp only [BlockIter.Seek]
    rw [if_neg (by rw [hinit]; simp)]
    simp only [hpi, hhi, Option.isSome_none, Bool.false_eq_true, if_false,
      hbs]
  obtain ⟨j, hj, hoffj, hsj⟩ := W.restartEntry idx (by omega)
  simp only [List.get_eq_getElem] at hoffj hsj
  have hwalk := walk_from_restart cmp data ro nr es target it idx j W hd hr
    hc hj hoffj hsj
  rw [← hseekeq] at hwalk
  constructor
  · intro hvalid
    rcases hwalk with ⟨m, hm, hjm, hsb, hat, hoffm, hcmpm, hprev⟩ |
      ⟨hall, hsb, hcur, hri⟩
    · refine ⟨m, hm, hat, hat.2.1, hcmpm, ?_⟩
      by_cases hmj : m = j
      · subst hmj
        rcases hinv with hidx0 | ⟨j2, hj2, hoffj2, hsj2, hle⟩
        · left
          have h00 : es[m].off = 0 := by
            rw [hoffj, hidx0]
            exact W.restartZero
          have h0 : 0 < es.length := by omega
          have hfirst : es[0].off = 0 :=
            ParsesFrom_first_off (WFBlock_parses W) h0
          exact WFBlock_off_inj W m 0 hm (by omega)
            (by rw [h00, hfirst])
        · have hj2m : j2 = m := WFBlock_off_inj W j2 m hj2 hm
            (by rw [hoffj2, hoffj])
          subst hj2m
          have hzero : cmp (es[j2].key) target = 0 := by omega
          by_cases hj0 : j2 = 0
          · left
            exact hj0
          · right
            intro hi2
            have hs := WFBlock_key_sorted W hcmp (j2 - 1) j2 hi2 hm
              (by omega)
            exact hcmp.lt_of_lt_of_eq _ _ _ hs hzero
      · right
        intro hi2
        exact hprev (m - 1) hi2 (by omega) (by omega)
    · exfalso
      have hrs : (it.Seek target).restarts = it.restarts := hsb.2.2.2.1
      have := Valid_false_of_invalid (it.Seek target)
        (by rw [hcur, hrs, hr])
      rw [this] at hvalid
      cases hvalid
  · intro hallkeys
    rcases hwalk with ⟨m, hm, hjm, hsb, hat, hoffm, hcmpm, hprev⟩ |
      ⟨hall, hsb, hcur, hri⟩
    · exfalso
      have := hallkeys m hm
      omega
    · have hrs : (it.Seek target).restarts = it.restarts := hsb.2.2.2.1
      exact Valid_false_of_invalid (it.Seek target) (by rw [hcur, hrs, hr])

/-- The single-entry block `wdS1` is well formed. -/
theorem wfS1 : WFBlock bytewiseCompare wdS1 10 1 wesS1 := by
  refine ⟨by decide, by decide, by decide, by decide, by decide, by decide,
    ?_, ?_, by decide, ?_⟩
  · intro k hk
    have hk0 : k = 0 := by omega
    subst hk0
    exact ⟨0, by decide, by decide, by decide⟩
  · intro k k2 h1 h2
    omega
  · intro j h
    have hl : wesS1.length = 1 := rfl
    omega

/-- Witness for `seek_monotone` at the block `wdS1` and target `"foo"`. -/
theorem seek_monotone_witness :
    ((witS1.Seek [102, 111, 111]).Valid = true →
      ∃ i, ∃ hi : i < wesS1.length,
        AtEntryKV (witS1.Seek [102, 111, 111]) wesS1[i] ∧
        (witS1.Seek [102, 111, 111]).key = wesS1[i].key ∧
        0 ≤ bytewiseCompare (wesS1[i].key) [102, 111, 111] ∧
        (i = 0 ∨ ∀ hi2 : i - 1 < wesS1.length,
          bytewiseCompare (wesS1[i - 1].key) [102, 111, 111] < 0)) ∧
    ((∀ i (hi : i < wesS1.length),
        bytewiseCompare (wesS1[i].key) [102, 111, 111] < 0) →
      (witS1.Seek [102, 111, 111]).Valid = false) :=
  seek_monotone bytewiseCompare wdS1 10 1 wesS1 witS1 [102, 111, 111]
    isComparator_bytewise wfS1 ⟨rfl, rfl, rfl, rfl, rfl⟩ rfl rfl rfl

theorem Valid_true_of_lt (it : BlockIter) (h : it.current < it.restarts) :
    it.Valid = true := by
  simp [BlockIter.Valid, h]

theorem NextEntryOffset_of_value (it : BlockIter) (a b : Nat)
    (hv : it.value = (a, b)) (hlt : a + b < 4294967296) :
    it.NextEntryOffset = a + b := by
  have h1 : it.NextEntryOffset = (it.value.1 + it.value.2) % 4294967296 :=
    rfl
  rw [h1, hv]
  exact Nat.mod_eq_of_lt hlt

theorem prevRewind_zero (it : BlockIter) :
    ∀ ri, it.prevRewind 0 ri = none := by
  intro ri
  induction ri with
  | zero => simp [BlockIter.prevRewind]
  | succ r ih => simp [BlockIter.prevRewind, ih]

theorem prevRewind_found (it : BlockIter) (original : Nat) :
    ∀ ri, (∃ k, k ≤ ri ∧ it.GetRestartPoint k < original) →
      ∃ j, it.prevRewind original ri = some j ∧ j ≤ ri ∧
        it.GetRestartPoint j < original := by
  intro ri
  induction ri with
  | zero =>
    intro ⟨k, hk, hlt⟩
    have hk0 : k = 0 := by omega
    subst hk0
    refine ⟨0, ?_, le_refl _, hlt⟩
    simp only [BlockIter.prevRewind]
    rw [if_neg (by omega)]
  | succ r ih =>
    intro ⟨k, hk, hlt⟩
    by_cases h : it.GetRestartPoint (r + 1) ≥ original
    · have hk' : k ≤ r := by
        rcases Nat.lt_or_ge k (r + 1) with h1 | h1
        · omega
        · have hk1 : k = r + 1 := by omega
          subst hk1
          omega
      obtain ⟨j, hj, hjle, hjlt⟩ := ih ⟨k, hk', hlt⟩
      refine ⟨j, ?_, by omega, hjlt⟩
      simp only [BlockIter.prevRewind]
      rw [if_pos h]
      exact hj
    · refine ⟨r + 1, ?_, le_refl _, by omega⟩
      simp only [BlockIter.prevRewind]
      rw [if_neg h]

theorem drop_decomp_lt (es pre post : List Entry) (e : Entry) (j : Nat)
    (heq : es.drop j = pre ++ e :: post) (hjle : j ≤ es.length) :
    j + pre.length < es.length := by
  have h1 : (es.drop j).length = pre.length + (e :: post).length := by
    rw [heq]
    simp
  simp only [List.length_drop, List.length_cons] at h1
  omega

theorem drop_decomp_getElem (es pre post : List Entry) (e : Entry) (j : Nat)
    (heq : es.drop j = pre ++ e :: post) (hm : j + pre.length < es.length) :
    es[j + pre.length] = e := by
  rw [getElem_eq_drop_getD es j (j + pre.length) (by omega) hm, heq]
  have hidx : j + pre.length - j = pre.length := by omega
  rw [hidx, List.getD_eq_getElem?_getD, List.getElem?_append]
  simp

theorem drop_decomp_mem (es pre post : List Entry) (e : Entry) (j k : Nat)
    (heq : es.drop j = pre ++ e :: post) (hk : k < es.length) (hjk : j ≤ k)
    (hkm : k < j + pre.length) : es[k] ∈ pre := by
  have hkjpre : k - j < pre.length := by omega
  have hkpre : es[k] = pre.getD (k - j) default := by
    rw [getElem_eq_drop_getD es j k (by omega) hk, heq]
    exact entry_getD_append_left pre (e :: post) (k - j) hkjpre
  rw [hkpre, List.getD_eq_getElem pre default hkjpre]
  exact List.getElem_mem _

/-- C4: forward/backward symmetry over a well-formed block.  With the
cursor valid at entry `i` (and the restart-index bracketing invariant that
every reachable cursor state satisfies): for `i = 0`, `prev` makes the
cursor invalid (`current = restart_offset`, `restart_index = num_restarts`)
with status still OK; for `i > 0`, `prev` alone lands on entry `i - 1`
(valid, byte-identical key and value slice), and `prev` followed by `next`
returns to entry `i` with byte-identical key and value. -/
theorem prev_next_roundtrip (cmp : List Nat → List Nat → Int)
    (data : List Nat) (ro nr : Nat) (es : List Entry) (it : BlockIter)
    (i : Nat) (W : WFBlock cmp data ro nr es)
    (hit : IterOn it cmp data ro nr) (hi : i < es.length)
    (hat : AtEntryKV it es[i]) (hri : RestartIndexInv it)
    (hst : it.status = .OK) :
    (i = 0 → it.Prev.current = it.restarts ∧
      it.Prev.restartIndex = it.numRestarts ∧ it.Prev.status = .OK ∧
      it.Prev.Valid = false) ∧
    (0 < i → ∀ hi2 : i - 1 < es.length,
      (SameBlock it it.Prev ∧ AtEntryKV it.Prev es[i - 1] ∧
        it.Prev.Valid = true) ∧
      (SameBlock it it.Prev.Next ∧ AtEntryKV it.Prev.Next es[i] ∧
        it.Prev.Next.Valid = true)) := by
  obtain ⟨-, -, hd, hr, hn⟩ := hit
  obtain ⟨hcur, -, -⟩ := hat
  have hro32 := WFBlock_ro_lt W
  have hlen := WFBlock_len_le W
  constructor
  · intro hi0
    subst hi0
    have h0 : 0 < es.length := hi
    have hfirst : es[0].off = 0 :=
      ParsesFrom_first_off (WFBlock_parses W) h0
    have hcur0 : it.current = 0 := by rw [hcur, hfirst]
    have hprev : it.Prev =
        { it with current := it.restarts,
                  restartIndex := it.numRestarts } := by
      simp only [BlockIter.Prev, hcur0, prevRewind_zero]
    rw [hprev]
    refine ⟨rfl, rfl, hst, ?_⟩
    exact Valid_false_of_invalid _ rfl
  · intro hipos hi2
    have hoffi := (ParsesFrom_entry_facts (WFBlock_parses W) i hi).2.2.2.1
    have hoffi1pos : 0 < es[i].off := by
      have hfirst : es[0].off = 0 :=
        ParsesFrom_first_off (WFBlock_parses W) (by omega)
      have := ParsesFrom_off_mono (WFBlock_parses W) 0 i (by omega) hi hipos
      omega
    have hrp0 : it.GetRestartPoint 0 = 0 := by
      rw [BlockIter.GetRestartPoint, hd, hr]
      exact W.restartZero
    obtain ⟨j, hprw, hjle, hjlt⟩ := prevRewind_found it it.current
      it.restartIndex ⟨0, by omega, by rw [hrp0, hcur]; omega⟩
    have hjnr : j < nr := by
      have := hri.1
      omega
    obtain ⟨ej, hej, hoffej, hsej⟩ := W.restartEntry j hjnr
    simp only [List.get_eq_getElem] at hoffej hsej
    have hoffejlt : es[ej].off < es[i].off := by
      rw [BlockIter.GetRestartPoint, hd, hr, ← hoffej, hcur] at hjlt
      exact hjlt
    have heji : ej < i := by
      rcases Nat.lt_or_ge ej i with h1 | h1
      · exact h1
      · exfalso
        rcases Nat.eq_or_lt_of_le h1 with h2 | h2
        · have h7 : es.getD i default = es.getD ej default := by rw [h2]
          rw [List.getD_eq_getElem es default hi,
            List.getD_eq_getElem es default hej] at h7
          rw [h7] at hoffejlt
          omega
        · have := ParsesFrom_off_mono (WFBlock_parses W) i ej hi hej h2
          omega
    have hpreveq : it.Prev = BlockIter.parseUntil it.current
        (it.restarts + 1) (it.SeekToRestartPoint j) := by
      simp only [BlockIter.Prev, hprw]
    set st0 := it.SeekToRestartPoint j with hst0
    have hsb0 : SameBlock it st0 := ⟨rfl, rfl, rfl, rfl, rfl, rfl, rfl, rfl⟩
    have hrpj : it.GetRestartPoint j = es[ej].off := by
      rw [BlockIter.GetRestartPoint, hd, hr, hoffej]
    have hofflt : es[ej].off < ro :=
      (ParsesFrom_entry_facts (WFBlock_parses W) ej hej).2.2.2.1
    have hne0 : st0.NextEntryOffset = es[ej].off := by
      simp only [hst0, BlockIter.SeekToRestartPoint,
        BlockIter.NextEntryOffset, hrpj]
      rw [Nat.add_zero]
      exact Nat.mod_eq_of_lt (by omega)
    have hdrop := ParsesFrom_drop data ro es 0 [] ej hej (WFBlock_parses W)
    have hp0 : ParsesFrom st0.data st0.restarts st0.NextEntryOffset
        (if ej = 0 then ([] : List Nat)
         else (es.getD (ej - 1) default).key) (es.drop ej) := by
      have hd0 : st0.data = data := by
        rw [show st0.data = it.data from rfl, hd]
      have hr0 : st0.restarts = it.restarts := rfl
      rw [hd0, hr0, hr, hne0]
      exact hdrop
    have hcompat0 : ∀ e rest, es.drop ej = e :: rest →
        st0.key.take e.shared =
          (if ej = 0 then ([] : List Nat)
           else (es.getD (ej - 1) default).key).take e.shared ∧
        e.shared ≤ st0.key.length := by
      intro e rest hdr
      have he : e = es[ej] := by
        have := List.drop_eq_getElem_cons hej
        rw [hdr] at this
        exact (List.cons.injEq _ _ _ _ ▸ this).1
      rw [he, hsej]
      simp
    have hfuel0 : (es.drop ej).length < st0.restarts + 1 := by
      rw [show st0.restarts = it.restarts from rfl, hr]
      simp only [List.length_drop]
      omega
    have hendi1 : (es[i - 1]).endOff = es[i].off := by
      have h5 := ParsesFrom_off_succ (WFBlock_parses W) (i - 1) (by omega)
      have h6 : es[i - 1 + 1] = es[i] := by
        have h7 : es.getD (i - 1 + 1) default = es.getD i default := by
          have hids : i - 1 + 1 = i := by omega
          rw [hids]
        rw [List.getD_eq_getElem es default
            (show i - 1 + 1 < es.length by omega),
          List.getD_eq_getElem es default hi] at h7
        exact h7
      rw [h6] at h5
      exact h5.symm
    have hwalk := parseUntil_spec it.current (es.drop ej)
      (st0.restarts + 1) st0 _
      (by rw [show st0.restarts = it.restarts from rfl, hr]; omega)
      hp0 hcompat0 hfuel0
    have hrw : BlockIter.parseUntil it.current (st0.restarts + 1) st0 =
        it.Prev := by
      rw [show st0.restarts = it.restarts from rfl]
      exact hpreveq.symm
    rw [hrw] at hwalk
    clear hrw hp0 hcompat0 hfuel0 hdrop
    rcases hwalk with ⟨pre, e, post, heq, hpre, hbnd, hsb, hat', hoffe⟩ |
      ⟨hall, -, -, -⟩
    · have hm := drop_decomp_lt es pre post e ej heq (by omega)
      have hem := drop_decomp_getElem es pre post e ej heq hm
      set m := ej + pre.length with hmdef
      have hmi : m = i - 1 := by
        rcases Nat.lt_trichotomy m (i - 1) with h1 | h1 | h1
        · exfalso
          have hsucc := ParsesFrom_off_succ (WFBlock_parses W) m (by omega)
          have hmono := ParsesFrom_off_mono (WFBlock_parses W) (m + 1) i
            (by omega) hi (by omega)
          rw [hem] at hsucc
          rw [hcur] at hbnd
          omega
        · exact h1
        · exfalso
          have hmem := drop_decomp_mem es pre post e ej (i - 1) heq hi2
            (by omega) (by omega)
          have h3 := hpre _ hmem
          rw [hendi1, ← hcur] at h3
          omega
      have hem2 : es[i - 1] = e := by
        have h4 : es.getD (i - 1) default = es.getD m default := by
          rw [hmi]
        rw [List.getD_eq_getElem es default hi2,
          List.getD_eq_getElem es default hm] at h4
        exact h4.trans hem
      have hvalP : it.Prev.value =
          ((es[i - 1]).body + (es[i - 1]).nonShared,
            (es[i - 1]).valueLen) := by
        rw [hem2]
        exact hat'.2.2
      have hkeyP : it.Prev.key = (es[i - 1]).key := by
        rw [hem2]
        exact hat'.2.1
      have hendlt : (es[i - 1]).endOff ≤ ro :=
        (ParsesFrom_entry_facts (WFBlock_parses W) (i - 1) hi2).2.2.1
      have hsbP : SameBlock it it.Prev := SameBlock_trans hsb0 hsb
      constructor
      · refine ⟨hsbP, ?_, ?_⟩
        · rw [hem2]
          exact hat'
        · apply Valid_true_of_lt
          rw [hat'.1, hsb.2.2.2.1]
          exact hoffe
      · have hsum : (es[i - 1]).body + (es[i - 1]).nonShared +
            (es[i - 1]).valueLen < 4294967296 := by
          have h2 := hendlt
          simp only [Entry.endOff] at h2
          omega
        have hneP : it.Prev.NextEntryOffset = es[i].off := by
          rw [NextEntryOffset_of_value it.Prev _ _ hvalP hsum, ← hendi1,
            Entry.endOff]
        have hdropi := ParsesFrom_drop data ro es 0 [] i hi
          (WFBlock_parses W)
        have hgd : es.getD (i - 1) default = es[i - 1] :=
          List.getD_eq_getElem es default hi2
        rw [if_neg (by omega), hgd, List.drop_eq_getElem_cons hi] at hdropi
        have hpP : ParsesFrom it.Prev.data it.Prev.restarts (es[i].off)
            ((es[i - 1]).key) (es[i] :: es.drop (i + 1)) := by
          rw [hsbP.2.2.1, hsbP.2.2.2.1, hd, hr]
          exact hdropi
        have hk2P : (es[i]).shared ≤ (es[i - 1]).key.length :=
          (ParsesFrom_cons hpP).2.2.2.1
        have hstepP := ParseNextKey_step it.Prev ((es[i - 1]).key) (es[i])
          (es.drop (i + 1)) hneP hpP (by rw [hkeyP])
          (by rw [hkeyP]; exact hk2P)
        have hN : it.Prev.Next =
            { it.Prev with
                current := (es[i]).off, key := (es[i]).key,
                value := ((es[i]).body + (es[i]).nonShared,
                  (es[i]).valueLen),
                restartIndex := it.Prev.advanceRestartIndex ((es[i]).off)
                  it.Prev.restartIndex } := by
          show (it.Prev.ParseNextKey).2 = _
          rw [hstepP]
        refine ⟨?_, ?_, ?_⟩
        · refine SameBlock_trans hsbP ?_
          rw [hN]
          exact ⟨rfl, rfl, rfl, rfl, rfl, rfl, rfl, rfl⟩
        · rw [hN]
          exact ⟨rfl, rfl, rfl⟩
        · apply Valid_true_of_lt
          rw [hN]
          show (es[i]).off < it.Prev.restarts
          rw [hsbP.2.2.2.1, hr]
          exact hoffi
    · exfalso
      have hmem : (es[i - 1]) ∈ es.drop ej := by
        have hkd : i - 1 - ej < (es.drop ej).length := by
          simp only [List.length_drop]
          omega
        rw [getElem_eq_drop_getD es ej (i - 1) (by omega) hi2,
          List.getD_eq_getElem _ default hkd]
        exact List.getElem_mem _
      have := hall _ hmem
      rw [hendi1, ← hcur] at this
      omega

theorem wfS2 : WFBlock bytewiseCompare wdS2 12 1 wesS2 := by
  refine ⟨by decide, by decide, by decide, by decide, by decide, by decide,
    ?_, ?_, by decide, ?_⟩
  · intro k hk
    have hk0 : k = 0 := by omega
    subst hk0
    exact ⟨0, by decide, by decide, by decide⟩
  · intro k k2 h1 h2
    omega
  · intro j h
    have hl : wesS2.length = 2 := rfl
    have hj0 : j = 0 := by omega
    subst hj0
    show bytewiseCompare [102, 111, 111] [102, 111, 114] < 0
    decide

/-- Witness for `prev_next_roundtrip`: over the two-entry block `wdS2`,
from entry 1 (key `"for"`), `prev` lands on entry 0 (key `"foo"`, valid),
and `prev` then `next` returns to entry 1 with byte-identical key and
value slice. -/
theorem prev_next_roundtrip_witness :
    (SameBlock witS2e1 witS2e1.Prev ∧
      AtEntryKV witS2e1.Prev ⟨0, 0, 3, 1, 3, [102, 111, 111]⟩ ∧
      witS2e1.Prev.Valid = true) ∧
    (SameBlock witS2e1 witS2e1.Prev.Next ∧
      AtEntryKV witS2e1.Prev.Next ⟨7, 2, 1, 1, 10, [102, 111, 114]⟩ ∧
      witS2e1.Prev.Next.Valid = true) :=
  (prev_next_roundtrip bytewiseCompare wdS2 12 1 wesS2 witS2e1 1 wfS2
      ⟨rfl, rfl, rfl, rfl, rfl⟩ (by decide)
      ⟨by decide, by decide, by decide⟩
      ⟨by decide, by decide, fun h => absurd h (by decide)⟩ (by decide)).2
    (by decide) (by decide)

theorem CompareBlockKey_cases (it : BlockIter) (bi : Nat)
    (target : List Nat) :
    BlockIter.CompareBlockKey it bi target = (1, it.CorruptionError) ∨
    ∃ c, BlockIter.CompareBlockKey it bi target = (c, it) := by
  unfold BlockIter.CompareBlockKey
  cases hd : DecodeEntry it.data (it.GetRestartPoint bi) it.restarts with
  | none => left; simp [hd]
  | some v =>
    obtain ⟨s, ns, vl, kp⟩ := v
    by_cases hs : s ≠ 0
    · left
      simp [hd, hs]
    · right
      refine ⟨it.cmp (sliceOf it.data kp ns) target, ?_⟩
      simp [hd, hs]

theorem BBIndexSettle_spec (it : BlockIter) (target blockIds : List Nat)
    (lb l : Nat) :
    (¬(0 < blockIds.getD l 0 ∧
        (l = lb ∨ blockIds.getD (l - 1) 0 ≠ blockIds.getD l 0 - 1) ∧
        0 < (BlockIter.CompareBlockKey it (blockIds.getD l 0 - 1)
          target).1) →
      BlockIter.BBIndexSettle it target blockIds lb l =
        (some (blockIds.getD l 0), it)) ∧
    ((0 < blockIds.getD l 0 ∧
        (l = lb ∨ blockIds.getD (l - 1) 0 ≠ blockIds.getD l 0 - 1) ∧
        0 < (BlockIter.CompareBlockKey it (blockIds.getD l 0 - 1)
          target).1) →
      (BlockIter.BBIndexSettle it target blockIds lb l).1 = none ∧
      (BlockIter.BBIndexSettle it target blockIds lb l).2.current =
        (BlockIter.BBIndexSettle it target blockIds lb l).2.restarts ∧
      (BlockIter.BBIndexSettle it target blockIds lb l).2.restarts =
        it.restarts) := by
  by_cases hg : 0 < blockIds.getD l 0 ∧
      (l = lb ∨ blockIds.getD (l - 1) 0 ≠ blockIds.getD l 0 - 1)
  · rcases CompareBlockKey_cases it (blockIds.getD l 0 - 1) target with
      hc | ⟨c, hc⟩
    · have h1 : (0 : Int) <
          (BlockIter.CompareBlockKey it (blockIds.getD l 0 - 1)
            target).1 := by
        rw [hc]
        exact zero_lt_one
      have hset : BlockIter.BBIndexSettle it target blockIds lb l =
          (none, { it.CorruptionError with
                     current := it.CorruptionError.restarts }) := by
        simp only [BlockIter.BBIndexSettle, hc, if_pos hg]
        rw [if_pos (show (0 : Int) <
          ((1 : Int), it.CorruptionError).1 from zero_lt_one)]
      constructor
      · intro hn
        exact absurd ⟨hg.1, hg.2, h1⟩ hn
      · intro _h
        rw [hset]
        exact ⟨rfl, rfl, rfl⟩
    · by_cases hcl : (0 : Int) < c
      · have h1 : (0 : Int) <
            (BlockIter.CompareBlockKey it (blockIds.getD l 0 - 1)
              target).1 := by
          rw [hc]
          exact hcl
        have hset : BlockIter.BBIndexSettle it target blockIds lb l =
            (none, { it with current := it.restarts }) := by
          simp only [BlockIter.BBIndexSettle, hc, if_pos hg]
          rw [if_pos (show (0 : Int) < (c, it).1 from hcl)]
        constructor
        · intro hn
          exact absurd ⟨hg.1, hg.2, h1⟩ hn
        · intro _h
          rw [hset]
          exact ⟨rfl, rfl, rfl⟩
      · have h1 : ¬((0 : Int) <
            (BlockIter.CompareBlockKey it (blockIds.getD l 0 - 1)
              target).1) := by
          rw [hc]
          exact hcl
        have hset : BlockIter.BBIndexSettle it target blockIds lb l =
            (some (blockIds.getD l 0), it) := by
          simp only [BlockIter.BBIndexSettle, hc, if_pos hg]
          rw [if_neg (show ¬((0 : Int) < (c, it).1) from hcl)]
        constructor
        · intro _h
          exact hset
        · intro htri
          exact absurd htri.2.2 h1
  · have hset : BlockIter.BBIndexSettle it target blockIds lb l =
        (some (blockIds.getD l 0), it) := by
      simp only [BlockIter.BBIndexSettle]
      rw [if_neg hg]
    constructor
    · intro _h
      exact hset
    · intro htri
      exact absurd ⟨htri.1, htri.2.1⟩ hg

theorem bbIndexSeekLoop_gt (target blockIds : List Nat) (lb fuel : Nat)
    (it : BlockIter) (l r : Nat) (h : r < l) (hf : 1 ≤ fuel) :
    BlockIter.bbIndexSeekLoop target blockIds lb fuel it l r =
      (none, { it with current := it.restarts }) := by
  cases fuel with
  | zero => exact absurd hf (by omega)
  | succ f =>
    simp only [BlockIter.bbIndexSeekLoop]
    rw [if_neg (by omega)]

theorem bbIndexSeekLoop_spec (target blockIds : List Nat) (lb : Nat)
    (hlen30 : blockIds.length ≤ 1073741824) :
    ∀ fuel l r (it : BlockIter), it.status = .OK → l ≤ r →
      r < blockIds.length → r + 2 ≤ fuel + l →
      (∃ k, k < blockIds.length ∧
        BlockIter.bbIndexSeekLoop target blockIds lb fuel it l r =
          (some (blockIds.getD k 0), it)) ∨
      ((BlockIter.bbIndexSeekLoop target blockIds lb fuel it l r).1 =
          none ∧
        (BlockIter.bbIndexSeekLoop target blockIds lb fuel it l
            r).2.current =
          (BlockIter.bbIndexSeekLoop target blockIds lb fuel it l
            r).2.restarts ∧
        (BlockIter.bbIndexSeekLoop target blockIds lb fuel it l
            r).2.restarts = it.restarts) := by
  intro fuel
  induction fuel with
  | zero =>
    intro l r it hst hlr hrlen hfuel
    exact absurd hfuel (by omega)
  | succ f ih =>
    intro l r it hst hlr hrlen hfuel
    have hmodeq : (l + r) % 4294967296 = l + r :=
      Nat.mod_eq_of_lt (by omega)
    simp only [BlockIter.bbIndexSeekLoop]
    rw [if_pos hlr]
    set mid := (l + r) % 4294967296 / 2 with hmiddef
    have hmideq : mid = (l + r) / 2 := by
      rw [hmiddef, hmodeq]
    rcases CompareBlockKey_cases it (blockIds.getD mid 0) target with
      hc | ⟨c, hc⟩
    · rw [hc]
      rw [if_pos (show ((1 : Int),
          it.CorruptionError).2.status ≠ Status.OK from
        (by decide : Status.BadEntryInBlock ≠ Status.OK))]
      right
      exact ⟨rfl, rfl, rfl⟩
    · rw [hc]
      rw [if_neg (show ¬(((c : Int), it).2.status ≠ Status.OK) by
        simp [hst])]
      by_cases hcl : c < 0
      · rw [if_pos (show ((c : Int), it).1 < 0 from hcl)]
        by_cases hmr : mid + 1 ≤ r
        · exact ih (mid + 1) r it hst hmr hrlen (by omega)
        · right
          rw [bbIndexSeekLoop_gt target blockIds lb f it (mid + 1) r
            (by omega) (by omega)]
          exact ⟨rfl, rfl, rfl⟩
      · rw [if_neg (show ¬(((c : Int), it).1 < 0) from hcl)]
        by_cases heq : l = r
        · rw [if_pos heq]
          obtain ⟨hsome, hnone⟩ :=
            BBIndexSettle_spec it target blockIds lb l
          by_cases htri : 0 < blockIds.getD l 0 ∧
              (l = lb ∨ blockIds.getD (l - 1) 0 ≠ blockIds.getD l 0 - 1) ∧
              0 < (BlockIter.CompareBlockKey it (blockIds.getD l 0 - 1)
                target).1
          · right
            exact hnone htri
          · left
            exact ⟨l, by omega, hsome htri⟩
        · rw [if_neg heq]
          exact ih l mid it hst (by omega) (by omega) (by omega)

theorem restart_shared_zero (cmp : List Nat → List Nat → Int)
    (data : List Nat) (ro nr : Nat) (es : List Entry)
    (W : WFBlock cmp data ro nr es)
    (hone : ∀ k, (hk : k < es.length) →
      es[k].off = DecodeFixed32 data (ro + k * 4))
    (bi : Nat) (hbi : bi < nr) (hbi2 : bi < es.length) :
    es[bi].shared = 0 := by
  obtain ⟨j, hj, hoffj, hsj⟩ := W.restartEntry bi hbi
  simp only [List.get_eq_getElem] at hoffj hsj
  have hjbi : j = bi :=
    WFBlock_off_inj W j bi hj hbi2 (by rw [hoffj, hone bi hbi2])
  have hgd : es.getD j default = es.getD bi default := by rw [hjbi]
  rw [List.getD_eq_getElem es default hj,
    List.getD_eq_getElem es default hbi2] at hgd
  rw [← hgd]
  exact hsj

theorem CompareBlockKey_sem (cmp : List Nat → List Nat → Int)
    (data : List Nat) (ro nr : Nat) (es : List Entry) (it : BlockIter)
    (W : WFBlock cmp data ro nr es) (hd : it.data = data)
    (hr : it.restarts = ro) (hc : it.cmp = cmp) (hlen : es.length = nr)
    (hone : ∀ k, (hk : k < es.length) →
      es[k].off = DecodeFixed32 data (ro + k * 4))
    (target : List Nat) (bi : Nat) (hbi : bi < nr) :
    BlockIter.CompareBlockKey it bi target =
      (cmp ((es.getD bi default).key) target, it) := by
  have hbi2 : bi < es.length := by omega
  have hsbi : es[bi].shared = 0 :=
    restart_shared_zero cmp data ro nr es W hone bi hbi hbi2
  obtain ⟨hdec, -, -, -, hkey⟩ :=
    ParsesFrom_entry_facts (WFBlock_parses W) bi hbi2
  have hrp : it.GetRestartPoint bi = es[bi].off := by
    rw [BlockIter.GetRestartPoint, hd, hr, hone bi hbi2]
  simp only [BlockIter.CompareBlockKey, hrp, hd, hr, hdec]
  rw [if_neg (show ¬(es[bi].shared ≠ 0) by omega)]
  rw [← hkey hsbi, hc, List.getD_eq_getElem es default hbi2]

theorem bbIndexSeekLoop_mono (cmp : List Nat → List Nat → Int)
    (data : List Nat) (ro nr : Nat) (es : List Entry) (target : List Nat)
    (B : List Nat) (hcmp : IsComparator cmp)
    (W : WFBlock cmp data ro nr es) (hlen : es.length = nr)
    (hone : ∀ k, (hk : k < es.length) →
      es[k].off = DecodeFixed32 data (ro + k * 4))
    (hasc : ∀ i2, i2 < B.length → ∀ i, i < i2 →
      B.getD i 0 < B.getD i2 0)
    (hBnr : ∀ x ∈ B, x < nr)
    (hcontract : ∀ k, k < nr →
      cmp ((es.getD k default).key) target = 0 →
      ∃ i, i < B.length ∧ B.getD i 0 = k)
    (hB30 : B.length ≤ 1073741824) :
    ∀ fuel l r (it : BlockIter), it.data = data → it.restarts = ro →
      it.cmp = cmp → it.status = .OK → l ≤ r → r < B.length →
      r + 2 ≤ fuel + l →
      (∀ i, i < l →
        cmp ((es.getD (B.getD i 0) default).key) target < 0) →
      (∃ l2, l2 < B.length ∧
        BlockIter.bbIndexSeekLoop target B 0 fuel it l r =
          (some (B.getD l2 0), it) ∧
        0 ≤ cmp ((es.getD (B.getD l2 0) default).key) target ∧
        (B.getD l2 0 = 0 ∨
          cmp ((es.getD (B.getD l2 0 - 1) default).key) target < 0)) ∨
      ((BlockIter.bbIndexSeekLoop target B 0 fuel it l r).1 = none ∧
        (BlockIter.bbIndexSeekLoop target B 0 fuel it l r).2.current =
          (BlockIter.bbIndexSeekLoop target B 0 fuel it l r).2.restarts ∧
        (BlockIter.bbIndexSeekLoop target B 0 fuel it l r).2.restarts =
          it.restarts) := by
  intro fuel
  induction fuel with
  | zero =>
    intro l r it hd hr hc hst hlr hrlen hfuel hinv
    exact absurd hfuel (by omega)
  | succ f ih =>
    intro l r it hd hr hc hst hlr hrlen hfuel hinv
    have hmodeq : (l + r) % 4294967296 = l + r :=
      Nat.mod_eq_of_lt (by omega)
    simp only [BlockIter.bbIndexSeekLoop]
    rw [if_pos hlr]
    set mid := (l + r) % 4294967296 / 2 with hmiddef
    have hmideq : mid = (l + r) / 2 := by rw [hmiddef, hmodeq]
    have hmidlen : mid < B.length := by omega
    have hmemmid : B.getD mid 0 < nr := by
      rw [List.getD_eq_getElem B 0 hmidlen]
      exact hBnr _ (List.getElem_mem _)
    have hck := CompareBlockKey_sem cmp data ro nr es it W hd hr hc hlen
      hone target (B.getD mid 0) hmemmid
    rw [hck]
    rw [if_neg (show
      ¬((cmp ((es.getD (B.getD mid 0) default).key) target,
          it).2.status ≠ Status.OK) by simp [hst])]
    by_cases hcl : cmp ((es.getD (B.getD mid 0) default).key) target < 0
    · rw [if_pos (show
        (cmp ((es.getD (B.getD mid 0) default).key) target, it).1 < 0
          from hcl)]
      have hinv2 : ∀ i, i < mid + 1 →
          cmp ((es.getD (B.getD i 0) default).key) target < 0 := by
        intro i hi
        by_cases hil : i < l
        · exact hinv i hil
        · rcases Nat.eq_or_lt_of_le (show i ≤ mid by omega) with he | hlt2
          · rw [he]
            exact hcl
          · have hilen : i < B.length := by omega
            have hBlt : B.getD i 0 < B.getD mid 0 := hasc mid hmidlen i hlt2
            have h1 : B.getD i 0 < es.length := by
              have : B.getD i 0 < nr := by
                rw [List.getD_eq_getElem B 0 hilen]
                exact hBnr _ (List.getElem_mem _)
              omega
            have h2 : B.getD mid 0 < es.length := by omega
            have hkeys : cmp ((es.getD (B.getD i 0) default).key)
                ((es.getD (B.getD mid 0) default).key) < 0 := by
              have := WFBlock_key_sorted W hcmp (B.getD i 0) (B.getD mid 0)
                h1 h2 hBlt
              rw [List.getD_eq_getElem es default h1,
                List.getD_eq_getElem es default h2]
              exact this
            exact hcmp.lt_trans _ _ _ hkeys hcl
      by_cases hmr : mid + 1 ≤ r
      · exact ih (mid + 1) r it hd hr hc hst hmr hrlen (by omega) hinv2
      · right
        rw [bbIndexSeekLoop_gt target B 0 f it (mid + 1) r (by omega)
          (by omega)]
        exact ⟨rfl, rfl, rfl⟩
    · rw [if_neg (show
        ¬((cmp ((es.getD (B.getD mid 0) default).key) target, it).1 < 0)
          from hcl)]
      by_cases heq : l = r
      · rw [if_pos heq]
        have hmidl : mid = l := by omega
        have hge : 0 ≤ cmp ((es.getD (B.getD l 0) default).key) target := by
          rw [← hmidl]
          omega
        have hllen : l < B.length := by omega
        have hblnr : B.getD l 0 < nr := by
          rw [List.getD_eq_getElem B 0 hllen]
          exact hBnr _ (List.getElem_mem _)
        obtain ⟨hsome, hnone⟩ := BBIndexSettle_spec it target B 0 l
        by_cases htri : 0 < B.getD l 0 ∧
            (l = 0 ∨ B.getD (l - 1) 0 ≠ B.getD l 0 - 1) ∧
            0 < (BlockIter.CompareBlockKey it (B.getD l 0 - 1) target).1
        · right
          exact hnone htri
        · left
          refine ⟨l, hllen, hsome htri, hge, ?_⟩
          by_cases hbl0 : B.getD l 0 = 0
          · exact Or.inl hbl0
          · right
            by_cases hG : l = 0 ∨ B.getD (l - 1) 0 ≠ B.getD l 0 - 1
            · have hbl1nr : B.getD l 0 - 1 < nr := by omega
              have hcksem := CompareBlockKey_sem cmp data ro nr es it W hd
                hr hc hlen hone target (B.getD l 0 - 1) hbl1nr
              have hnC : ¬(0 <
                  (BlockIter.CompareBlockKey it (B.getD l 0 - 1)
                    target).1) := by
                intro hC
                exact htri ⟨by omega, hG, hC⟩
              rw [hcksem] at hnC
              have hle : cmp ((es.getD (B.getD l 0 - 1) default).key)
                  target ≤ 0 := by
                by_contra hgt
                push_neg at hgt
                exact hnC hgt
              rcases lt_or_eq_of_le hle with hlt2 | heq0
              · exact hlt2
              · exfalso
                obtain ⟨i, hilen, hieq⟩ := hcontract (B.getD l 0 - 1)
                  (by omega) heq0
                rcases Nat.lt_trichotomy i l with hil | hil | hil
                · rcases hG with hl0 | hgap
                  · omega
                  · have hBl1 : B.getD (l - 1) 0 < B.getD l 0 :=
                      hasc l hllen (l - 1) (by omega)
                    have hBile : B.getD i 0 ≤ B.getD (l - 1) 0 := by
                      rcases Nat.eq_or_lt_of_le
                          (show i ≤ l - 1 by omega) with he | hlt3
                      · exact le_of_eq (by rw [he])
                      · exact le_of_lt (hasc (l - 1) (by omega) i hlt3)
                    omega
                · rw [hil] at hieq
                  omega
                · have := hasc i hilen l hil
                  omega
            · push_neg at hG
              have := hinv (l - 1) (by omega)
              rw [hG.2] at this
              exact this
      · rw [if_neg heq]
        exact ih l mid it hd hr hc hst (by omega) (by omega) (by omega)
          hinv

theorem PrefixSeek_eq (it : BlockIter) (target : List Nat)
    (f : List Nat → List Nat) (hpf : it.prefixIndex = some f)
    (hne : 0 < (f target).length) :
    BlockIter.PrefixSeek it target =
      BlockIter.bbIndexSeekLoop target (f target) 0
        ((f target).length - 1 - 0 + 2) it 0 ((f target).length - 1) := by
  simp only [BlockIter.PrefixSeek, hpf]
  rw [if_neg (by omega)]
  rfl

theorem Seek_prefix_path (it : BlockIter) (target : List Nat)
    (f : List Nat → List Nat) (hinit : it.initialized = true)
    (hpf : it.prefixIndex = some f) :
    it.Seek target =
      match (BlockIter.PrefixSeek it target).1 with
      | none => (BlockIter.PrefixSeek it target).2
      | some index => BlockIter.seekLinear target
          ((BlockIter.PrefixSeek it target).2.restarts + 1)
          (BlockIter.SeekToRestartPoint (BlockIter.PrefixSeek it target).2
            index) := by
  simp only [BlockIter.Seek]
  rw [if_neg (by rw [hinit]; simp)]
  rw [if_pos (show it.prefixIndex.isSome = true by rw [hpf]; rfl)]

/-- C6: the prefix-index gap check.  First, the `left == right` settle step
invalidates the cursor exactly when `block_ids[left] > 0`, no candidate
sits just to the left of `block_ids[left]` (the range's left bound, or the
previous candidate differs from `block_ids[left] - 1`), and the restart
entry at index `block_ids[left] - 1` compares greater than the target;
invalidation leaves the cursor not `Valid`, and in every other case the
settle step hands back restart index `block_ids[left]` with the cursor
untouched.  Second, with the check in place the prefix-index seek path
preserves seek monotonicity in full: over a well-formed block satisfying
the auxiliary-index applicability conditions (one entry per restart point,
as the auxiliary indexes require; candidates strictly ascending and below
`num_restarts`; and the prefix-index contract that any restart point
holding a key equal to the target is among the candidates), whenever
`seek(target)` leaves the cursor valid, it stands at an entry whose key
compares `≥ target`, and either that entry is the block's first or the
immediately preceding entry's key compares `< target`.  Third, the check
is load-bearing when the prefix index omits restart points between
candidates: on the block `wdGap` with candidate list `[0, 2]` (restart 1
omitted) and target `"b"`, the checked path invalidates the cursor, while
proceeding from candidate restart 2 regardless (what skipping the check
would do) lands on the `"e"` entry even though the immediately preceding
entry's key `"c"` does not compare below the target. -/
theorem prefix_index_gap_check (cmp : List Nat → List Nat → Int)
    (data : List Nat) (ro nr : Nat) (es : List Entry) (it : BlockIter)
    (target : List Nat) (f : List Nat → List Nat)
    (hcmp : IsComparator cmp) (W : WFBlock cmp data ro nr es)
    (hit : IterOn it cmp data ro nr) (hpf : it.prefixIndex = some f)
    (hst : it.status = .OK) (hne : 0 < (f target).length)
    (hsz : (f target).length ≤ 1073741824)
    (hin : ∀ x ∈ f target, x < nr) (hlen : es.length = nr)
    (hone : ∀ k, (hk : k < es.length) →
      es[k].off = DecodeFixed32 data (ro + k * 4))
    (hasc : ∀ i2, i2 < (f target).length → ∀ i, i < i2 →
      (f target).getD i 0 < (f target).getD i2 0)
    (hcontract : ∀ k, k < nr →
      cmp ((es.getD k default).key) target = 0 →
      ∃ i, i < (f target).length ∧ (f target).getD i 0 = k) :
    (∀ (it2 : BlockIter) (blockIds : List Nat) (lb l : Nat),
      ((BlockIter.BBIndexSettle it2 target blockIds lb l).1 = none ↔
        0 < blockIds.getD l 0 ∧
        (l = lb ∨ blockIds.getD (l - 1) 0 ≠ blockIds.getD l 0 - 1) ∧
        0 < (BlockIter.CompareBlockKey it2 (blockIds.getD l 0 - 1)
          target).1) ∧
      ((BlockIter.BBIndexSettle it2 target blockIds lb l).1 = none →
        (BlockIter.BBIndexSettle it2 target blockIds lb l).2.Valid =
          false) ∧
      (¬(0 < blockIds.getD l 0 ∧
          (l = lb ∨ blockIds.getD (l - 1) 0 ≠ blockIds.getD l 0 - 1) ∧
          0 < (BlockIter.CompareBlockKey it2 (blockIds.getD l 0 - 1)
            target).1) →
        BlockIter.BBIndexSettle it2 target blockIds lb l =
          (some (blockIds.getD l 0), it2))) ∧
    ((it.Seek target).Valid = true →
      ∃ m, ∃ hm : m < es.length, AtEntryKV (it.Seek target) es[m] ∧
        0 ≤ cmp (es[m].key) target ∧
        (m = 0 ∨ ∀ hm2 : m - 1 < es.length,
          cmp (es[m - 1].key) target < 0)) ∧
    ((witGap.Seek [98]).Valid = false ∧
     (BlockIter.BBIndexSettle witGap [98] [0, 2] 0 1).1 = none ∧
     parseEntries wdGap 12 = some wesGap ∧
     (BlockIter.seekLinear [98] (witGap.restarts + 1)
        (witGap.SeekToRestartPoint 2)).Valid = true ∧
     AtEntryKV (BlockIter.seekLinear [98] (witGap.restarts + 1)
        (witGap.SeekToRestartPoint 2)) (wesGap.getD 2 default) ∧
     ¬(bytewiseCompare ((wesGap.getD 1 default).key) [98] < 0)) := by
  obtain ⟨hc, hinit, hd, hr, hn⟩ := hit
  refine ⟨?_, ?_, by decide, by decide, by decide, by decide,
    ⟨by decide, by decide, by decide⟩, by decide⟩
  · intro it2 blockIds lb l
    obtain ⟨hsome, hnone⟩ := BBIndexSettle_spec it2 target blockIds lb l
    have hiff : (BlockIter.BBIndexSettle it2 target blockIds lb l).1 =
        none ↔
        0 < blockIds.getD l 0 ∧
        (l = lb ∨ blockIds.getD (l - 1) 0 ≠ blockIds.getD l 0 - 1) ∧
        0 < (BlockIter.CompareBlockKey it2 (blockIds.getD l 0 - 1)
          target).1 := by
      constructor
      · intro hn1
        by_contra htri
        rw [hsome htri] at hn1
        exact Option.noConfusion hn1
      · intro htri
        exact (hnone htri).1
    refine ⟨hiff, ?_, hsome⟩
    intro hn1
    exact Valid_false_of_invalid _ ((hnone (hiff.mp hn1)).2.1)
  · intro hv
    have hps := PrefixSeek_eq it target f hpf hne
    have hsk := Seek_prefix_path it target f hinit hpf
    rw [hps] at hsk
    rcases bbIndexSeekLoop_mono cmp data ro nr es target (f target) hcmp W
        hlen hone hasc hin hcontract hsz
        ((f target).length - 1 - 0 + 2) 0 ((f target).length - 1) it hd hr
        hc hst (by omega) (by omega) (by omega)
        (fun i hi => absurd hi (by omega)) with
      ⟨l2, hl2, heqloop, hge, hpred⟩ | ⟨hn1, hn2, hn3⟩
    · rw [heqloop] at hsk
      simp only at hsk
      set bl := (f target).getD l2 0 with hbldef
      have hblnr : bl < nr := by
        rw [hbldef, List.getD_eq_getElem (f target) 0 hl2]
        exact hin _ (List.getElem_mem _)
      have hbl2 : bl < es.length := by omega
      have hsbl : es[bl].shared = 0 :=
        restart_shared_zero cmp data ro nr es W hone bl hblnr hbl2
      rcases walk_from_restart cmp data ro nr es target it bl bl W hd hr
          hc hbl2 (hone bl hbl2) hsbl with
        ⟨m, hm, hjm, hsb, hat, hofflt, hcmpe, hpre⟩ |
        ⟨hall, hsb, hcur, hri2⟩
      · have hgeE : 0 ≤ cmp (es[bl].key) target := by
          rw [← List.getD_eq_getElem es default hbl2]
          exact hge
        have hmbl : m = bl := by
          rcases Nat.eq_or_lt_of_le hjm with he | hlt2
          · exact he.symm
          · exfalso
            have := hpre bl hbl2 (le_refl _) hlt2
            omega
        have hem : es[m] = es[bl] := by
          have hgd : es.getD m default = es.getD bl default := by
            rw [hmbl]
          rw [List.getD_eq_getElem es default hm,
            List.getD_eq_getElem es default hbl2] at hgd
          exact hgd
        rw [hem] at hat
        refine ⟨bl, hbl2, ?_, hgeE, ?_⟩
        · rw [hsk]
          exact hat
        · rcases hpred with h0 | hlt3
          · exact Or.inl h0
          · right
            intro hm2
            rwa [List.getD_eq_getElem es default hm2] at hlt3
      · exfalso
        have hfalse : (it.Seek target).Valid = false := by
          rw [hsk]
          apply Valid_false_of_invalid
          rw [hcur, hsb.2.2.2.1, hr]
        rw [hfalse] at hv
        exact Bool.noConfusion hv
    · exfalso
      have hseek2 : it.Seek target =
          (BlockIter.bbIndexSeekLoop target (f target) 0
            ((f target).length - 1 - 0 + 2) it 0
            ((f target).length - 1)).2 := by
        rw [hsk]
        cases hcase : (BlockIter.bbIndexSeekLoop target (f target) 0
            ((f target).length - 1 - 0 + 2) it 0
            ((f target).length - 1)).1 with
        | none => rfl
        | some idx => rw [hcase] at hn1; exact Option.noConfusion hn1
      have hfalse : (it.Seek target).Valid = false := by
        rw [hseek2]
        exact Valid_false_of_invalid _ hn2
      rw [hfalse] at hv
      exact Bool.noConfusion hv

theorem wfS3 : WFBlock bytewiseCompare wdS3 14 2 wesS3 := by
  refine ⟨by decide, by decide, by decide, by decide, by decide, by decide,
    ?_, ?_, by decide, ?_⟩
  · intro k hk
    match k, hk with
    | 0, _ => exact ⟨0, by decide, by decide, by decide⟩
    | 1, _ => exact ⟨1, by decide, by decide, by decide⟩
  · intro k k2 h1 h2
    have hk : k = 0 := by omega
    have hk2 : k2 = 1 := by omega
    subst hk
    subst hk2
    decide
  · intro j h
    have hl : wesS3.length = 2 := rfl
    have hj0 : j = 0 := by omega
    subst hj0
    show bytewiseCompare [97, 98, 99] [100, 101, 102] < 0
    decide

/-- Witness for `prefix_index_gap_check`: the two-restart block `wdS3` with
a prefix index offering both restart indices as candidates, target
`"def"`. -/
theorem prefix_index_gap_check_witness :
    (∀ (it2 : BlockIter) (blockIds : List Nat) (lb l : Nat),
      ((BlockIter.BBIndexSettle it2 [100, 101, 102] blockIds lb l).1 =
          none ↔
        0 < blockIds.getD l 0 ∧
        (l = lb ∨ blockIds.getD (l - 1) 0 ≠ blockIds.getD l 0 - 1) ∧
        0 < (BlockIter.CompareBlockKey it2 (blockIds.getD l 0 - 1)
          [100, 101, 102]).1) ∧
      ((BlockIter.BBIndexSettle it2 [100, 101, 102] blockIds lb l).1 =
          none →
        (BlockIter.BBIndexSettle it2 [100, 101, 102] blockIds lb
          l).2.Valid = false) ∧
      (¬(0 < blockIds.getD l 0 ∧
          (l = lb ∨ blockIds.getD (l - 1) 0 ≠ blockIds.getD l 0 - 1) ∧
          0 < (BlockIter.CompareBlockKey it2 (blockIds.getD l 0 - 1)
            [100, 101, 102]).1) →
        BlockIter.BBIndexSettle it2 [100, 101, 102] blockIds lb l =
          (some (blockIds.getD l 0), it2))) ∧
    ((witC6.Seek [100, 101, 102]).Valid = true →
      ∃ m, ∃ hm : m < wesS3.length,
        AtEntryKV (witC6.Seek [100, 101, 102]) wesS3[m] ∧
        0 ≤ bytewiseCompare (wesS3[m].key) [100, 101, 102] ∧
        (m = 0 ∨ ∀ hm2 : m - 1 < wesS3.length,
          bytewiseCompare (wesS3[m - 1].key) [100, 101, 102] < 0)) ∧
    ((witGap.Seek [98]).Valid = false ∧
     (BlockIter.BBIndexSettle witGap [98] [0, 2] 0 1).1 = none ∧
     parseEntries wdGap 12 = some wesGap ∧
     (BlockIter.seekLinear [98] (witGap.restarts + 1)
        (witGap.SeekToRestartPoint 2)).Valid = true ∧
     AtEntryKV (BlockIter.seekLinear [98] (witGap.restarts + 1)
        (witGap.SeekToRestartPoint 2)) (wesGap.getD 2 default) ∧
     ¬(bytewiseCompare ((wesGap.getD 1 default).key) [98] < 0)) :=
  prefix_index_gap_check bytewiseCompare wdS3 14 2 wesS3 witC6
    [100, 101, 102] (fun _ => [0, 1]) isComparator_bytewise wfS3
    ⟨rfl, rfl, rfl, rfl, rfl⟩ rfl (by decide) (by decide) (by decide)
    (by decide) (by decide) (by decide) (by decide) (by decide)

end RocksBlock
